import Mathlib

/-!
# Verification of the Scene & Shot Planner core (`streamlit_app.py`)

This file gives a shallow embedding of the core of the planner application:
the state codec (`encode_scenes` / `decode_scenes`, i.e. strip file handles,
JSON-encode, zlib-compress, urlsafe-base64), the scene factory (`make_scene`),
the text flattener (`build_lines`) and the geometry of the raster export
(`scenes_to_jpeg`), together with proofs of the specified properties.

Bytes are modelled as `List Nat` with every element `< 256`.  The Python
standard-library collaborators are embedded as executable Lean functions:

* UTF-8 encode/decode (`str.encode` / `bytes.decode`, strict);
* URL-safe base64 (`base64.urlsafe_b64encode` / `urlsafe_b64decode`);
* zlib (`zlib.compress` / `zlib.decompress`).  The compressor is embedded as
  a valid zlib stream writer emitting stored (uncompressed) deflate blocks,
  and the decompressor inflates stored blocks and validates the zlib header
  and the adler32 checksum; huffman-compressed block types are outside the
  model (the codec claims only need round-trips and failure behaviour);
* `json.dumps` / `json.loads` with Python's default separators and
  `ensure_ascii` escaping.  Numeric literals are modelled as integers (the
  application serializes only integer ids); float, NaN and Infinity literals
  are outside the model.

All recursive functions are structural so that concrete inputs evaluate by
`decide` / `rfl` in the kernel.
-/

/-! ## Decimal digits (Python `str(int)` / JSON number lexing) -/

/-- The character for a single decimal digit. -/
def digitChar (d : Nat) : Char := Char.ofNat (48 + d)

/-- Decimal digits of `n`, most significant first; `fuel` bounds recursion. -/
def natCharsAux : Nat → Nat → List Char
  | 0, _ => []
  | fuel + 1, n =>
    if n < 10 then [digitChar n]
    else natCharsAux fuel (n / 10) ++ [digitChar (n % 10)]

/-- Decimal representation of a natural number, as Python `str` prints it. -/
def natChars (n : Nat) : List Char := natCharsAux (n + 1) n

/-- Decimal representation of an integer, as Python `str` prints it. -/
def intChars (i : Int) : List Char :=
  if i < 0 then '-' :: natChars i.natAbs else natChars i.toNat

/-- String form of an integer (used by the f-strings and by `json.dumps`). -/
def intStr (i : Int) : String := String.mk (intChars i)

/-- Is `c` an ASCII decimal digit? -/
def isDigitChar (c : Char) : Bool := 48 ≤ c.toNat && c.toNat ≤ 57

/-- Split a character list into its leading run of decimal digits and the rest. -/
def spanDigits : List Char → (List Char × List Char)
  | [] => ([], [])
  | c :: cs =>
    if isDigitChar c then
      let (ds, rest) := spanDigits cs
      (c :: ds, rest)
    else ([], c :: cs)

/-- Numeric value of a list of decimal digit characters. -/
def digitsVal (ds : List Char) : Nat :=
  ds.foldl (fun a c => a * 10 + (c.toNat - 48)) 0

/-! ## Hexadecimal (JSON `\uXXXX` escapes) -/

/-- Lower-case hex digit character (as `json.dumps` emits). -/
def hexChar (d : Nat) : Char :=
  Char.ofNat (if d < 10 then 48 + d else 87 + d)

/-- Value of a hex digit character, upper or lower case (as `json.loads` accepts). -/
def hexVal (c : Char) : Option Nat :=
  if 48 ≤ c.toNat ∧ c.toNat ≤ 57 then some (c.toNat - 48)
  else if 97 ≤ c.toNat ∧ c.toNat ≤ 102 then some (c.toNat - 87)
  else if 65 ≤ c.toNat ∧ c.toNat ≤ 70 then some (c.toNat - 55)
  else none

/-- The four hex digits of a 16-bit value, as in a `\uXXXX` escape. -/
def hex4Chars (v : Nat) : List Char :=
  [hexChar (v / 4096 % 16), hexChar (v / 256 % 16), hexChar (v / 16 % 16), hexChar (v % 16)]

/-! ## UTF-8 (`str.encode()` / `bytes.decode()`, strict errors) -/

/-- UTF-8 bytes of one character. -/
def charUtf8 (c : Char) : List Nat :=
  let v := c.toNat
  if v < 128 then [v]
  else if v < 2048 then [192 + v / 64, 128 + v % 64]
  else if v < 65536 then [224 + v / 4096, 128 + v / 64 % 64, 128 + v % 64]
  else [240 + v / 262144, 128 + v / 4096 % 64, 128 + v / 64 % 64, 128 + v % 64]

/-- UTF-8 bytes of a character list. -/
def utf8Bytes : List Char → List Nat
  | [] => []
  | c :: cs => charUtf8 c ++ utf8Bytes cs

/-- Python `str.encode()`: UTF-8 bytes of a string. -/
def utf8Encode (s : String) : List Nat := utf8Bytes s.data

/-- Decode one UTF-8 sequence from the front of a byte list: rejects
truncated sequences, continuation errors, overlong forms, surrogates and
out-of-range values, as Python's strict `bytes.decode()` does. -/
def utf8Step : List Nat → Option (Char × List Nat)
  | [] => none
  | b :: rest =>
    if b < 128 then some (Char.ofNat b, rest)
    else if 194 ≤ b ∧ b ≤ 223 then
      match rest with
      | b1 :: rest1 =>
        if 128 ≤ b1 ∧ b1 ≤ 191 then
          some (Char.ofNat ((b - 192) * 64 + (b1 - 128)), rest1)
        else none
      | [] => none
    else if 224 ≤ b ∧ b ≤ 239 then
      match rest with
      | b1 :: b2 :: rest2 =>
        if 128 ≤ b1 ∧ b1 ≤ 191 ∧ 128 ≤ b2 ∧ b2 ≤ 191 then
          let v := (b - 224) * 4096 + (b1 - 128) * 64 + (b2 - 128)
          if 2048 ≤ v ∧ ¬(55296 ≤ v ∧ v ≤ 57343) then
            some (Char.ofNat v, rest2)
          else none
        else none
      | _ => none
    else if 240 ≤ b ∧ b ≤ 244 then
      match rest with
      | b1 :: b2 :: b3 :: rest3 =>
        if 128 ≤ b1 ∧ b1 ≤ 191 ∧ 128 ≤ b2 ∧ b2 ≤ 191 ∧ 128 ≤ b3 ∧ b3 ≤ 191 then
          let v := (b - 240) * 262144 + (b1 - 128) * 4096 + (b2 - 128) * 64 + (b3 - 128)
          if 65536 ≤ v ∧ v < 1114112 then
            some (Char.ofNat v, rest3)
          else none
        else none
      | _ => none
    else none

/-- Strict UTF-8 decoding of a whole byte list; `fuel` bounds the number of
decoded characters (each consumes at least one byte). -/
def utf8DecodeAux : Nat → List Nat → Option (List Char)
  | _, [] => some []
  | 0, _ :: _ => none
  | fuel + 1, b :: rest =>
    match utf8Step (b :: rest) with
    | some (c, rest1) => (utf8DecodeAux fuel rest1).map (c :: ·)
    | none => none

/-- Python `bytes.decode()`: strict UTF-8 decoding into a string. -/
def utf8Decode (bs : List Nat) : Option String := (utf8DecodeAux bs.length bs).map String.mk

/-! ## URL-safe base64 (`base64.urlsafe_b64encode` / `urlsafe_b64decode`) -/

/-- Character `i` (for `i < 64`) of the URL-safe base64 alphabet. -/
def b64Char (i : Nat) : Char :=
  Char.ofNat
    (if i < 26 then 65 + i
     else if i < 52 then 97 + (i - 26)
     else if i < 62 then 48 + (i - 52)
     else if i = 62 then 45
     else 95)

/-- Index of a base64 alphabet character.  After `urlsafe_b64decode`'s
`-· → +`, `_ → /` translation both the URL-safe and the standard characters
for indices 62 and 63 are accepted. -/
def b64Idx (c : Char) : Option Nat :=
  let v := c.toNat
  if 65 ≤ v ∧ v ≤ 90 then some (v - 65)
  else if 97 ≤ v ∧ v ≤ 122 then some (26 + (v - 97))
  else if 48 ≤ v ∧ v ≤ 57 then some (52 + (v - 48))
  else if v = 45 ∨ v = 43 then some 62
  else if v = 95 ∨ v = 47 then some 63
  else none

/-- Base64 encoding of a byte list, three bytes to four characters, with
`=` padding. -/
def b64EncodeAux : List Nat → List Char
  | [] => []
  | [a] => [b64Char (a / 4), b64Char (a % 4 * 16), '=', '=']
  | [a, b] => [b64Char (a / 4), b64Char (a % 4 * 16 + b / 16), b64Char (b % 16 * 4), '=']
  | a :: b :: c :: rest =>
    b64Char (a / 4) :: b64Char (a % 4 * 16 + b / 16) :: b64Char (b % 16 * 4 + c / 64) ::
      b64Char (c % 64) :: b64EncodeAux rest

/-- Python `base64.urlsafe_b64encode(·).decode()`. -/
def b64Encode (bs : List Nat) : String := String.mk (b64EncodeAux bs)

/-- Decode groups of four base64 characters (input already filtered to
alphabet characters and `=`); `=` padding is legal only at the very end. -/
def b64DecodeGroups : List Char → Option (List Nat)
  | [] => some []
  | c1 :: c2 :: c3 :: c4 :: rest =>
    if c3 = '=' then
      if c4 = '=' ∧ rest = [] then do
        let i1 ← b64Idx c1
        let i2 ← b64Idx c2
        pure [i1 * 4 + i2 / 16]
      else none
    else if c4 = '=' then
      if rest = [] then do
        let i1 ← b64Idx c1
        let i2 ← b64Idx c2
        let i3 ← b64Idx c3
        pure [i1 * 4 + i2 / 16, i2 % 16 * 16 + i3 / 4]
      else none
    else do
      let i1 ← b64Idx c1
      let i2 ← b64Idx c2
      let i3 ← b64Idx c3
      let i4 ← b64Idx c4
      let tl ← b64DecodeGroups rest
      pure ((i1 * 4 + i2 / 16) :: (i2 % 16 * 16 + i3 / 4) :: (i3 % 4 * 64 + i4) :: tl)
  | _ => none

/-- Python `base64.urlsafe_b64decode` on a string token: requires ASCII,
discards characters outside the (translated) alphabet, requires a
multiple-of-four length after discarding, and decodes with `=` padding. -/
def b64Decode (s : String) : Option (List Nat) :=
  if s.data.all (fun c => c.toNat < 128) then
    b64DecodeGroups (s.data.filter (fun c => (b64Idx c).isSome || c = '='))
  else none

/-! ## zlib (`zlib.compress` / `zlib.decompress`), stored-block deflate -/

/-- One step of the adler32 state: running sums `A` and `B` modulo 65521. -/
def adlerStep (ab : Nat × Nat) (b : Nat) : Nat × Nat :=
  ((ab.1 + b) % 65521, (ab.2 + (ab.1 + b) % 65521) % 65521)

/-- adler32 checksum of a byte list. -/
def adler32 (bs : List Nat) : Nat :=
  ((bs.foldl adlerStep (1, 0)).2) * 65536 + (bs.foldl adlerStep (1, 0)).1

/-- Big-endian four-byte serialization of the adler32 checksum, as the zlib
stream trailer. -/
def adler32Bytes (bs : List Nat) : List Nat :=
  [adler32 bs / 16777216 % 256, adler32 bs / 65536 % 256, adler32 bs / 256 % 256,
    adler32 bs % 256]

/-- Deflate stored (uncompressed) blocks covering `data`: each block is a
3-bit header padded to a byte (`BFINAL` only, `BTYPE = 00`), a
little-endian 16-bit length, its one's complement, and the raw bytes;
chunks are at most 65535 bytes.  `fuel` bounds the block count. -/
def storedBlocks : Nat → List Nat → List Nat
  | 0, _ => []
  | fuel + 1, data =>
    if data.length ≤ 65535 then
      1 :: data.length % 256 :: data.length / 256 ::
        (65535 - data.length) % 256 :: (65535 - data.length) / 256 :: data
    else
      0 :: 255 :: 255 :: 0 :: 0 ::
        (data.take 65535 ++ storedBlocks fuel (data.drop 65535))

/-- Python `zlib.compress`, embedded as a stored-block zlib stream writer:
a `0x78 0x01` header (deflate, 32K window, header checksum valid), stored
deflate blocks, and the adler32 trailer. -/
def zlibCompress (data : List Nat) : List Nat :=
  120 :: 1 :: (storedBlocks (data.length + 1) data ++ adler32Bytes data)

/-- Inflate a sequence of stored deflate blocks, returning the data and the
bytes following the final block.  Compressed (huffman) block types are
outside the model and fail. -/
def inflateStored : Nat → List Nat → Option (List Nat × List Nat)
  | 0, _ => none
  | fuel + 1, b0 :: l0 :: l1 :: n0 :: n1 :: rest =>
    if b0 / 2 % 4 = 0 then
      if n0 + 256 * n1 = 65535 - (l0 + 256 * l1) ∧ l0 + 256 * l1 ≤ rest.length then
        if b0 % 2 = 1 then some (rest.take (l0 + 256 * l1), rest.drop (l0 + 256 * l1))
        else
          match inflateStored fuel (rest.drop (l0 + 256 * l1)) with
          | some (data, r) => some (rest.take (l0 + 256 * l1) ++ data, r)
          | none => none
      else none
    else none
  | _, _ => none

/-- Python `zlib.decompress`: checks the two-byte zlib header (deflate
method, window size, no preset dictionary, header checksum), inflates the
deflate blocks, and verifies the adler32 trailer. -/
def zlibDecompress (bs : List Nat) : Option (List Nat) :=
  match bs with
  | cmf :: flg :: rest =>
    if cmf % 16 = 8 ∧ cmf / 16 ≤ 7 ∧ (cmf * 256 + flg) % 31 = 0 ∧ flg / 32 % 2 = 0 then
      match inflateStored (rest.length + 1) rest with
      | some (data, r) =>
        match r with
        | a1 :: a2 :: a3 :: a4 :: _ =>
          if a1 * 16777216 + a2 * 65536 + a3 * 256 + a4 = adler32 data then some data
          else none
        | _ => none
      | none => none
    else none
  | _ => none

/-! ## JSON values (`json.dumps` / `json.loads`) -/

mutual

/-- A JSON value, as produced by `json.loads`.  Numbers are modelled as
integers: the application serializes only integer ids, and float, NaN and
Infinity literals are outside the model. -/
inductive Json where
  | null : Json
  | bool (b : Bool) : Json
  | num (n : Int) : Json
  | str (s : String) : Json
  | arr (xs : JsonList) : Json
  | obj (kvs : JsonObj) : Json
deriving DecidableEq

/-- A list of JSON values (a Python `list`). -/
inductive JsonList where
  | nil : JsonList
  | cons (hd : Json) (tl : JsonList) : JsonList
deriving DecidableEq

/-- Key-value pairs of a JSON object (a Python `dict`, insertion-ordered). -/
inductive JsonObj where
  | nil : JsonObj
  | cons (k : String) (v : Json) (tl : JsonObj) : JsonObj
deriving DecidableEq

end

/-- Membership of a value in a `JsonList`. -/
def jsonListMem (x : Json) : JsonList → Prop
  | .nil => False
  | .cons h t => x = h ∨ jsonListMem x t

/-- Does the object bind this key? -/
def objHasKey : JsonObj → String → Bool
  | .nil, _ => false
  | .cons k' _ tl, k => k' = k || objHasKey tl k

/-- First binding of a key in an object (Python `dict` lookup: with
deduplicated keys, the unique binding). -/
def objLookup : JsonObj → String → Option Json
  | .nil, _ => none
  | .cons k' v tl, k => if k' = k then some v else objLookup tl k

/-- Python `d[k] = v`: replace the binding in place, else append. -/
def objSet : JsonObj → String → Json → JsonObj
  | .nil, k, v => .cons k v .nil
  | .cons k' v' tl, k, v =>
    if k' = k then .cons k' v tl else .cons k' v' (objSet tl k v)

/-- Concatenation of object binding sequences. -/
def objAppend : JsonObj → JsonObj → JsonObj
  | .nil, o => o
  | .cons k v tl, o => .cons k v (objAppend tl o)

/-- Fold a raw pair sequence into a dict by repeated insertion,
as Python's `dict(pairs)` does (last value wins, first position kept). -/
def objFromPairsAux : JsonObj → JsonObj → JsonObj
  | acc, .nil => acc
  | acc, .cons k v tl => objFromPairsAux (objSet acc k v) tl

/-- Build a dict from parsed members. -/
def objFromPairs (raw : JsonObj) : JsonObj := objFromPairsAux .nil raw

/-- Are the object's keys pairwise distinct? -/
def objKeysNodup : JsonObj → Bool
  | .nil => true
  | .cons k _ tl => !objHasKey tl k && objKeysNodup tl

mutual

/-- Well-formedness for round-tripping: every object has distinct keys
(`json.dumps` of a Python `dict` can never print a duplicate key). -/
def jsonWf : Json → Bool
  | .null => true
  | .bool _ => true
  | .num _ => true
  | .str _ => true
  | .arr l => jsonListWf l
  | .obj o => objKeysNodup o && jsonObjWf o

/-- `jsonWf` on every element. -/
def jsonListWf : JsonList → Bool
  | .nil => true
  | .cons h t => jsonWf h && jsonListWf t

/-- `jsonWf` on every value. -/
def jsonObjWf : JsonObj → Bool
  | .nil => true
  | .cons _ v t => jsonWf v && jsonObjWf t

end

/-- `json.dumps` escaping of one character (`ensure_ascii=True`): quotes and
backslashes escaped, control characters via shortcuts or `\uXXXX`, printable
ASCII verbatim, all other characters as `\uXXXX` (with surrogate pairs
beyond the basic multilingual plane). -/
def escChar (c : Char) : List Char :=
  if c = '"' then ['\\', '"']
  else if c = '\\' then ['\\', '\\']
  else if c.toNat = 8 then ['\\', 'b']
  else if c.toNat = 9 then ['\\', 't']
  else if c.toNat = 10 then ['\\', 'n']
  else if c.toNat = 12 then ['\\', 'f']
  else if c.toNat = 13 then ['\\', 'r']
  else if c.toNat < 32 then '\\' :: 'u' :: hex4Chars c.toNat
  else if c.toNat ≤ 126 then [c]
  else if c.toNat < 65536 then '\\' :: 'u' :: hex4Chars c.toNat
  else '\\' :: 'u' :: hex4Chars (55296 + (c.toNat - 65536) / 1024) ++
    '\\' :: 'u' :: hex4Chars (56320 + (c.toNat - 65536) % 1024)

/-- `json.dumps` escaping of a character sequence. -/
def escChars : List Char → List Char
  | [] => []
  | c :: cs => escChar c ++ escChars cs

mutual

/-- `json.dumps` with the default separators `", "` and `": "`. -/
def dumpVal : Json → List Char
  | .null => "null".data
  | .bool true => "true".data
  | .bool false => "false".data
  | .num n => intChars n
  | .str s => '"' :: escChars s.data ++ ['"']
  | .arr .nil => ['[', ']']
  | .arr (.cons h t) => '[' :: (dumpVal h ++ dumpListRest t) ++ [']']
  | .obj .nil => ['\x7b', '\x7d']
  | .obj (.cons k v t) =>
    '\x7b' :: (('"' :: escChars k.data ++ '"' :: ':' :: ' ' :: dumpVal v) ++ dumpObjRest t) ++
      ['\x7d']

/-- Remaining array elements, each preceded by `", "`. -/
def dumpListRest : JsonList → List Char
  | .nil => []
  | .cons h t => ',' :: ' ' :: (dumpVal h ++ dumpListRest t)

/-- Remaining object members, each preceded by `", "`. -/
def dumpObjRest : JsonObj → List Char
  | .nil => []
  | .cons k v t =>
    ',' :: ' ' :: (('"' :: escChars k.data ++ '"' :: ':' :: ' ' :: dumpVal v) ++ dumpObjRest t)

end

/-- One `"key": value` member (the shape `dumpVal` and `dumpObjRest` emit
for each object binding). -/
def dumpEntry (k : String) (v : Json) : List Char :=
  '"' :: escChars k.data ++ '"' :: ':' :: ' ' :: dumpVal v

/-- Python `json.dumps` as a string. -/
def jsonDumps (j : Json) : String := String.mk (dumpVal j)

/-- JSON whitespace (`' '`, `'\t'`, `'\n'`, `'\r'`). -/
def isWsChar (c : Char) : Bool :=
  c.toNat = 32 || c.toNat = 9 || c.toNat = 10 || c.toNat = 13

/-- Drop leading JSON whitespace. -/
def skipWs : List Char → List Char
  | [] => []
  | c :: cs => if isWsChar c then skipWs cs else c :: cs

/-- Head of a character list, if any. -/
def headChar : List Char → Option Char
  | [] => none
  | c :: _ => some c

/-- One step of the JSON string scanner: `some (none, rest)` at the closing
quote, `some (some c, rest)` after one content character.  Strict: raw
control characters are rejected; `\uXXXX` escapes are decoded, with
surrogate pairs combined.  Lone surrogate escapes (accepted by Python into
surrogate-bearing `str` values no valid Unicode string can represent) are
outside the model. -/
def strStep : List Char → Option (Option Char × List Char)
  | [] => none
  | c :: rest =>
    if c = '"' then some (none, rest)
    else if c = '\\' then
      match rest with
      | [] => none
      | e :: rest2 =>
        if e = '"' then some (some '"', rest2)
        else if e = '\\' then some (some '\\', rest2)
        else if e = '/' then some (some '/', rest2)
        else if e = 'b' then some (some (Char.ofNat 8), rest2)
        else if e = 'f' then some (some (Char.ofNat 12), rest2)
        else if e = 'n' then some (some (Char.ofNat 10), rest2)
        else if e = 'r' then some (some (Char.ofNat 13), rest2)
        else if e = 't' then some (some (Char.ofNat 9), rest2)
        else if e = 'u' then
          match rest2 with
          | h1 :: h2 :: h3 :: h4 :: rest3 =>
            match hexVal h1, hexVal h2, hexVal h3, hexVal h4 with
            | some d1, some d2, some d3, some d4 =>
              if d1 * 4096 + d2 * 256 + d3 * 16 + d4 < 55296 ∨
                  57344 ≤ d1 * 4096 + d2 * 256 + d3 * 16 + d4 then
                some (some (Char.ofNat (d1 * 4096 + d2 * 256 + d3 * 16 + d4)), rest3)
              else if d1 * 4096 + d2 * 256 + d3 * 16 + d4 ≤ 56319 then
                match rest3 with
                | b1 :: b2 :: g1 :: g2 :: g3 :: g4 :: rest4 =>
                  if b1 = '\\' ∧ b2 = 'u' then
                    match hexVal g1, hexVal g2, hexVal g3, hexVal g4 with
                    | some e1, some e2, some e3, some e4 =>
                      if 56320 ≤ e1 * 4096 + e2 * 256 + e3 * 16 + e4 ∧
                          e1 * 4096 + e2 * 256 + e3 * 16 + e4 ≤ 57343 then
                        some (some (Char.ofNat (65536 +
                          (d1 * 4096 + d2 * 256 + d3 * 16 + d4 - 55296) * 1024 +
                          (e1 * 4096 + e2 * 256 + e3 * 16 + e4 - 56320))), rest4)
                      else none
                    | _, _, _, _ => none
                  else none
                | _ => none
              else none
            | _, _, _, _ => none
          | _ => none
        else none
    else if c.toNat < 32 then none
    else some (some c, rest)

/-- Parse a JSON string body after the opening quote, returning the content
and the characters after the closing quote; `fuel` bounds the character
count. -/
def parseStrAux : Nat → List Char → Option (List Char × List Char)
  | 0, _ => none
  | fuel + 1, cs =>
    match strStep cs with
    | some (none, rest) => some ([], rest)
    | some (some c, rest) => (parseStrAux fuel rest).map (fun p => (c :: p.1, p.2))
    | none => none

/-- Parse a JSON string body (fuel instantiated from the input length). -/
def parseStr (cs : List Char) : Option (List Char × List Char) :=
  parseStrAux (cs.length + 1) cs

/-- Parse an unsigned JSON integer: `0`, or a nonzero digit followed by
digits. -/
def parseUIntAux : List Char → Option (Nat × List Char)
  | [] => none
  | c :: rest =>
    if c = '0' then some (0, rest)
    else if isDigitChar c then
      some (digitsVal (c :: (spanDigits rest).1), (spanDigits rest).2)
    else none

/-- Parse a JSON integer with optional minus sign. -/
def parseIntAux : List Char → Option (Int × List Char)
  | [] => none
  | c :: rest =>
    if c = '-' then (parseUIntAux rest).map (fun p => (-(p.1 : Int), p.2))
    else (parseUIntAux (c :: rest)).map (fun p => ((p.1 : Int), p.2))

/-- Parse a number token.  A following `.`, `e` or `E` would make it a
float literal, which is outside the integer-only model. -/
def parseNumFrom (cs : List Char) : Option (Json × List Char) :=
  match parseIntAux cs with
  | some (n, r) =>
    match headChar r with
    | some c => if c = '.' ∨ c = 'e' ∨ c = 'E' then none else some (.num n, r)
    | none => some (.num n, r)
  | none => none

mutual

/-- The `json.loads` scanner for one value; `fuel` bounds the recursion
depth.  Leading whitespace is skipped; the remaining characters after the
value are returned. -/
def parseVal : Nat → List Char → Option (Json × List Char)
  | 0, _ => none
  | fuel + 1, cs =>
    match skipWs cs with
    | [] => none
    | c :: rest =>
      if c = 'n' then
        match rest with
        | 'u' :: 'l' :: 'l' :: r => some (.null, r)
        | _ => none
      else if c = 't' then
        match rest with
        | 'r' :: 'u' :: 'e' :: r => some (.bool true, r)
        | _ => none
      else if c = 'f' then
        match rest with
        | 'a' :: 'l' :: 's' :: 'e' :: r => some (.bool false, r)
        | _ => none
      else if c = '"' then
        (parseStr rest).map (fun p => (.str (String.mk p.1), p.2))
      else if c = '[' then
        if headChar (skipWs rest) = some ']' then some (.arr .nil, (skipWs rest).tail)
        else (parseElems fuel rest).map (fun p => (.arr p.1, p.2))
      else if c = '\x7b' then
        if headChar (skipWs rest) = some '\x7d' then some (.obj .nil, (skipWs rest).tail)
        else (parseMembers fuel rest).map (fun p => (.obj (objFromPairs p.1), p.2))
      else parseNumFrom (c :: rest)

/-- Array elements: a value, then either `,` and more elements or the
closing `]`. -/
def parseElems : Nat → List Char → Option (JsonList × List Char)
  | 0, _ => none
  | fuel + 1, cs =>
    match parseVal fuel cs with
    | some (v, r) =>
      match skipWs r with
      | [] => none
      | c :: r2 =>
        if c = ',' then (parseElems fuel r2).map (fun p => (.cons v p.1, p.2))
        else if c = ']' then some (.cons v .nil, r2)
        else none
    | none => none

/-- Object members: a quoted key, `:`, a value, then either `,` and more
members or the closing brace. -/
def parseMembers : Nat → List Char → Option (JsonObj × List Char)
  | 0, _ => none
  | fuel + 1, cs =>
    match skipWs cs with
    | [] => none
    | c :: rest =>
      if c = '"' then
        match parseStr rest with
        | some (kcs, r2) =>
          match skipWs r2 with
          | [] => none
          | c2 :: r3 =>
            if c2 = ':' then
              match parseVal fuel r3 with
              | some (v, r4) =>
                match skipWs r4 with
                | [] => none
                | c3 :: r5 =>
                  if c3 = ',' then
                    (parseMembers fuel r5).map
                      (fun p => (.cons (String.mk kcs) v p.1, p.2))
                  else if c3 = '\x7d' then some (.cons (String.mk kcs) v .nil, r5)
                  else none
              | none => none
            else none
        | none => none
      else none

end

/-- Does the list start with a decimal digit? -/
def headDigit : List Char → Bool
  | [] => false
  | c :: _ => isDigitChar c

/-- May a number token end here?  (No digit continuation and no float
continuation `.`/`e`/`E`.) -/
def numEnd : List Char → Bool
  | [] => true
  | c :: _ => !(isDigitChar c || c = '.' || c = 'e' || c = 'E')

/-- Python `json.loads`: scan one value, then require only trailing
whitespace. -/
def jsonLoads (s : String) : Option Json :=
  match parseVal (2 * s.data.length + 2) s.data with
  | some (j, rest) => if skipWs rest = [] then some j else none
  | none => none

mutual

/-- Fuel sufficient for `parseVal` on a dump of this value. -/
def needVal : Json → Nat
  | .null => 1
  | .bool _ => 1
  | .num _ => 1
  | .str _ => 1
  | .arr .nil => 1
  | .arr (.cons h t) => 1 + needElems (.cons h t)
  | .obj .nil => 1
  | .obj (.cons k v t) => 1 + needMembers (.cons k v t)

/-- Fuel sufficient for `parseElems` on dumped elements. -/
def needElems : JsonList → Nat
  | .nil => 0
  | .cons h t => 1 + needVal h + needElems t

/-- Fuel sufficient for `parseMembers` on dumped members. -/
def needMembers : JsonObj → Nat
  | .nil => 0
  | .cons _ v t => 1 + needVal v + needMembers t

end

/-! ## The application model (`streamlit_app.py`)

The live project is a list of scene dicts created by `make_scene` and
edited in place by the form; a scene holds its id, five text fields and a
list of shot dicts (id, type, alt_type, description, file).  The transient
`file` values are opaque uploaded-file handles, modelled by a type
parameter `α`. -/

/-- A shot record (`make_scene`'s shot dict layout). -/
structure Shot (α : Type) where
  id : Int
  type : Option String
  alt_type : Option String
  description : String
  file : Option α
deriving DecidableEq

/-- A scene record (`make_scene`'s scene dict layout). -/
structure Scene (α : Type) where
  id : Int
  title : String
  hook : String
  problem : String
  conflict : String
  resolution : String
  shots : List (Shot α)
deriving DecidableEq

/-- `SHOT_CYCLE = ["Wide", "Medium Shot", "Close‑Up", None]` (line 19). -/
def SHOT_CYCLE : List (Option String) :=
  [some "Wide", some "Medium Shot", some "Close‑Up", none]

/-- One shot dict of `make_scene` (lines 68-77): `id = i + 1`, the cycle
type, `alt_type = "Wide" if t is None else None`, empty description, no
file. -/
def make_shot (α : Type) (i : Nat) (t : Option String) : Shot α :=
  { id := (i : Int) + 1
    type := t
    alt_type := match t with
      | none => some "Wide"
      | some _ => none
    description := ""
    file := none }

/-- `make_scene` (lines 67-86). -/
def make_scene (α : Type) (idx : Int) : Scene α :=
  { id := idx + 1
    title := ""
    hook := ""
    problem := ""
    conflict := ""
    resolution := ""
    shots := (SHOT_CYCLE.enum).map (fun p => make_shot α p.1 p.2) }

/-- Python truthiness of an optional string (`if sh['type']`): `None` and
the empty string are falsy. -/
def pyTruthy : Option String → Bool
  | none => false
  | some s => !(s = "")

/-- How an optional string renders inside an f-string (`None` prints as
`"None"`). -/
def pyStrOfOpt : Option String → String
  | none => "None"
  | some s => s

/-- One shot line of `build_lines` (lines 167-169):
`stype = sh['type'] if sh['type'] else sh['alt_type']`, then
`f"    Shot {sh['id']} ({stype}) – {sh['description']}"`. -/
def shot_line (α : Type) (sh : Shot α) : String :=
  "    Shot " ++ intStr sh.id ++ " (" ++
    pyStrOfOpt (if pyTruthy sh.type then sh.type else sh.alt_type) ++ ") – " ++
    sh.description

/-- The lines one scene contributes in `build_lines` (lines 161-170). -/
def scene_lines (α : Type) (sc : Scene α) : List String :=
  ("Scene " ++ intStr sc.id ++ ": " ++ sc.title) ::
  ("  Hook: " ++ sc.hook) ::
  ("  Problem: " ++ sc.problem) ::
  ("  Conflict: " ++ sc.conflict) ::
  ("  Resolution: " ++ sc.resolution) ::
  (sc.shots.map (shot_line α) ++ [""])

/-- `build_lines` (lines 159-171). -/
def build_lines (α : Type) : List (Scene α) → List String
  | [] => []
  | sc :: rest => scene_lines α sc ++ build_lines α rest

/-! ## The state codec over the typed model -/

/-- A `str`-or-`None` value as JSON. -/
def optStrToJson : Option String → Json
  | none => .null
  | some s => .str s

/-- Embed a Lean list into `JsonList`. -/
def jsonListOfList : List Json → JsonList
  | [] => .nil
  | j :: t => .cons j (jsonListOfList t)

/-- The serialized form of one shot produced by `strip_files` (line 31):
the shot dict with the `file` key dropped, keys in `make_scene`'s
insertion order. -/
def shotToJsonStripped (α : Type) (sh : Shot α) : Json :=
  .obj (.cons "id" (.num sh.id)
    (.cons "type" (optStrToJson sh.type)
      (.cons "alt_type" (optStrToJson sh.alt_type)
        (.cons "description" (.str sh.description) .nil))))

/-- The serialized form of one scene produced by `strip_files` (lines
28-34): all scene keys in `make_scene`'s insertion order, with the shots
replaced by their file-stripped copies. -/
def sceneToJsonStripped (α : Type) (sc : Scene α) : Json :=
  .obj (.cons "id" (.num sc.id)
    (.cons "title" (.str sc.title)
      (.cons "hook" (.str sc.hook)
        (.cons "problem" (.str sc.problem)
          (.cons "conflict" (.str sc.conflict)
            (.cons "resolution" (.str sc.resolution)
              (.cons "shots" (.arr (jsonListOfList (sc.shots.map (shotToJsonStripped α))))
                .nil)))))))

/-- `encode_scenes` (lines 25-38): strip the file handles, `json.dumps`,
`zlib.compress`, URL-safe base64. -/
def encode_scenes (α : Type) (scenes : List (Scene α)) : String :=
  b64Encode (zlibCompress (utf8Encode
    (jsonDumps (.arr (jsonListOfList (scenes.map (sceneToJsonStripped α)))))))

/-! ## `decode_scenes` -/

/-- `sh.setdefault("file", None)` (line 47): add a trailing `file: null`
binding unless the key is present. -/
def objSetdefaultFile (kvs : JsonObj) : JsonObj :=
  if objHasKey kvs "file" then kvs else objAppend kvs (.cons "file" .null .nil)

/-- `for sh in sc.get("shots", []): sh.setdefault("file", None)` over the
elements of a `shots` list: every element must be a dict (anything else
has no `setdefault` and raises). -/
def pyShotsPass : JsonList → Option JsonList
  | .nil => some .nil
  | .cons (.obj kvs) tl => (pyShotsPass tl).map (.cons (.obj (objSetdefaultFile kvs)))
  | .cons _ _ => none

/-- The body of the decode loop for one scene: `sc.get` requires a dict;
a missing `shots` key defaults to the empty list; a list value has its
shot dicts defaulted in place; an empty dict or empty string value
iterates zero times; any other value raises while iterating or calling
`setdefault`. -/
def pyScenePass (sc : Json) : Option Json :=
  match sc with
  | .obj kvs =>
    match objLookup kvs "shots" with
    | none => some (.obj kvs)
    | some (.arr shots) =>
      (pyShotsPass shots).map (fun shots2 => .obj (objSet kvs "shots" (.arr shots2)))
    | some (.obj .nil) => some (.obj kvs)
    | some (.str s) => if s = "" then some (.obj kvs) else none
    | some _ => none
  | _ => none

/-- `for sc in scenes` over the parsed scenes. -/
def pyScenesListPass : JsonList → Option JsonList
  | .nil => some .nil
  | .cons sc tl =>
    match pyScenePass sc with
    | some sc2 => (pyScenesListPass tl).map (.cons sc2)
    | none => none

/-- The whole `for` loop of `decode_scenes` (lines 45-47) on the value
`json.loads` returned: iterating a non-list value either raises (so the
`except` yields `[]`) or — for an empty dict or empty string — iterates
zero times and the value is returned unchanged. -/
def pyFilePass : Json → Option Json
  | .arr scenes => (pyScenesListPass scenes).map .arr
  | .obj .nil => some (.obj .nil)
  | .str s => if s = "" then some (.str s) else none
  | _ => none

/-- The fallible stages of `decode_scenes` (line 43-48):
`urlsafe_b64decode`, `zlib.decompress`, `bytes.decode`, `json.loads`, and
the file-defaulting loop. -/
def decodePipeline (token : String) : Option Json := do
  let bytes ← b64Decode token
  let raw ← zlibDecompress bytes
  let s ← utf8Decode raw
  let j ← jsonLoads s
  pyFilePass j

/-- `decode_scenes` (lines 41-50): any exception in the pipeline is caught
and the empty project `[]` is returned. -/
def decode_scenes (token : String) : Json :=
  match decodePipeline token with
  | some j => j
  | none => .arr .nil

/-! ## Claim vocabulary: structural comparison and spec-level validity -/

/-- Does a serialized shot record agree with a typed shot on id, type,
alt_type and description (the fields of the data model other than the
transient `file`)? -/
def shotMatchesJson (α : Type) (j : Json) (sh : Shot α) : Bool :=
  match j with
  | .obj kvs =>
    (objLookup kvs "id" = some (.num sh.id)) &&
    (objLookup kvs "type" = some (optStrToJson sh.type)) &&
    (objLookup kvs "alt_type" = some (optStrToJson sh.alt_type)) &&
    (objLookup kvs "description" = some (.str sh.description))
  | _ => false

/-- Pointwise `shotMatchesJson`. -/
def shotsMatchJson (α : Type) : JsonList → List (Shot α) → Bool
  | .nil, [] => true
  | .cons j tl, sh :: rest => shotMatchesJson α j sh && shotsMatchJson α tl rest
  | _, _ => false

/-- Does a serialized scene record agree with a typed scene field for
field (scene id, the five text fields, and the shots pointwise)? -/
def sceneMatchesJson (α : Type) (j : Json) (sc : Scene α) : Bool :=
  match j with
  | .obj kvs =>
    (objLookup kvs "id" = some (.num sc.id)) &&
    (objLookup kvs "title" = some (.str sc.title)) &&
    (objLookup kvs "hook" = some (.str sc.hook)) &&
    (objLookup kvs "problem" = some (.str sc.problem)) &&
    (objLookup kvs "conflict" = some (.str sc.conflict)) &&
    (objLookup kvs "resolution" = some (.str sc.resolution)) &&
    (match objLookup kvs "shots" with
     | some (.arr shots) => shotsMatchJson α shots sc.shots
     | _ => false)
  | _ => false

/-- Pointwise `sceneMatchesJson`. -/
def scenesMatchJson (α : Type) : JsonList → List (Scene α) → Bool
  | .nil, [] => true
  | .cons j tl, sc :: rest => sceneMatchesJson α j sc && scenesMatchJson α tl rest
  | _, _ => false

/-- Is a decoded value structurally equal, field for field, to a typed
project? -/
def projectMatchesJson (α : Type) : Json → List (Scene α) → Bool
  | .arr js, scenes => scenesMatchJson α js scenes
  | _, _ => false

/-- Every shot of every scene has no live file. -/
def allFilesNone (α : Type) (scenes : List (Scene α)) : Bool :=
  scenes.all (fun sc => sc.shots.all (fun sh => sh.file.isNone))

/-- Replace every shot's transient `file` field by the absent marker. -/
def eraseFiles (α : Type) (scenes : List (Scene α)) : List (Scene α) :=
  scenes.map (fun sc =>
    { sc with shots := sc.shots.map (fun sh => { sh with file := (none : Option α) }) })

/-- All elements satisfy the predicate. -/
def jsonListAll (p : Json → Bool) : JsonList → Bool
  | .nil => true
  | .cons j tl => p j && jsonListAll p tl

/-- Modelled from the spec: §3's Shot record — a dict with an integer
`id`, a `type` that is a string or absent (null), an `alt_type` that is a
string or null, and a string `description`. -/
def shotRecordWellFormed (j : Json) : Bool :=
  match j with
  | .obj kvs =>
    (match objLookup kvs "id" with
     | some (.num _) => true
     | _ => false) &&
    (match objLookup kvs "type" with
     | some .null => true
     | some (.str _) => true
     | _ => false) &&
    (match objLookup kvs "alt_type" with
     | some .null => true
     | some (.str _) => true
     | _ => false) &&
    (match objLookup kvs "description" with
     | some (.str _) => true
     | _ => false)
  | _ => false

/-- Length of a `JsonList`. -/
def jsonListLength : JsonList → Nat
  | .nil => 0
  | .cons _ tl => jsonListLength tl + 1

/-- Modelled from the spec: §3's Scene record — a dict with an integer
`id`, string `title`, `hook`, `problem`, `conflict` and `resolution`
fields, and a `shots` list of exactly four well-formed Shot records. -/
def sceneRecordWellFormed (j : Json) : Bool :=
  match j with
  | .obj kvs =>
    (match objLookup kvs "id" with
     | some (.num _) => true
     | _ => false) &&
    (match objLookup kvs "title" with
     | some (.str _) => true
     | _ => false) &&
    (match objLookup kvs "hook" with
     | some (.str _) => true
     | _ => false) &&
    (match objLookup kvs "problem" with
     | some (.str _) => true
     | _ => false) &&
    (match objLookup kvs "conflict" with
     | some (.str _) => true
     | _ => false) &&
    (match objLookup kvs "resolution" with
     | some (.str _) => true
     | _ => false) &&
    (match objLookup kvs "shots" with
     | some (.arr shots) => jsonListLength shots = 4 && jsonListAll shotRecordWellFormed shots
     | _ => false)
  | _ => false

/-- Modelled from the spec: a decoded value is a valid project iff it is a
list of valid Scene records. -/
def validSceneListJson (j : Json) : Bool :=
  match j with
  | .arr xs => jsonListAll sceneRecordWellFormed xs
  | _ => false

/-! ## Raster export geometry (`scenes_to_jpeg`, lines 173-187)

The PIL font is an out-of-scope black box (`ImageFont.load_default()`);
it is modelled by its two metrics the code reads: `getlength` (rendered
width of a line) and the `getbbox('Hg')[3]` ascent/descent extent. -/

/-- Modelled from the spec: the default font as a black box, reduced to
the two metrics `scenes_to_jpeg` reads. -/
structure FontModel where
  getlength : String → Nat
  hgExtent : Nat

/-- One `draw.text((10, y), line, fill='black', font=font)` call. -/
structure DrawOp where
  x : Nat
  y : Nat
  text : String
  fill : String
deriving DecidableEq

/-- The geometry of the produced raster: canvas size, background color,
and the sequence of text-drawing operations. -/
structure RasterSpec where
  width : Nat
  height : Nat
  background : String
  ops : List DrawOp
deriving DecidableEq

/-- Python `max()` over a list: raises (`none`) on an empty sequence. -/
def listMax : List Nat → Option Nat
  | [] => none
  | x :: xs => some (xs.foldl max x)

/-- `lh = font.getbbox('Hg')[3] + 4` (line 176). -/
def line_height (font : FontModel) : Nat := font.hgExtent + 4

/-- The drawing loop (lines 181-184): start at `y = 10`, draw each line at
`(10, y)` in black, advance `y` by the line height. -/
def draw_loop (font : FontModel) : Nat → List String → List DrawOp
  | _, [] => []
  | y, l :: ls => ⟨10, y, l, "black"⟩ :: draw_loop font (y + line_height font) ls

/-- The raster geometry of `scenes_to_jpeg` after `build_lines` (lines
176-184): fails like Python's `max()` when there are no lines; otherwise
the canvas is the widest line plus a 20-unit margin by line-height times
line-count plus a 20-unit margin, white, with the drawing ops of the loop.
The JPEG byte encoding itself (line 186) is an out-of-scope black box. -/
def render_raster (font : FontModel) (lines : List String) : Option RasterSpec :=
  match listMax (lines.map font.getlength) with
  | none => none
  | some m => some
    { width := m + 20
      height := line_height font * lines.length + 20
      background := "white"
      ops := draw_loop font 10 lines }

/-- `scenes_to_jpeg` (lines 173-187) up to the black-box JPEG encoder. -/
def scenes_to_jpeg (α : Type) (font : FontModel) (scenes : List (Scene α)) :
    Option RasterSpec :=
  render_raster font (build_lines α scenes)

/-! ## A heap model of `encode_scenes`'s effect on its argument (C7)

The live project is a graph of mutable Python objects.  We model the
store explicitly: values are scalars or references into a heap of dicts,
lists and opaque uploaded-file objects; allocation appends at the end, so
every pre-existing address keeps its object unless written.  `strip_files`
(lines 27-34) is the only stage of `encode_scenes` that walks the
argument; the later stages (`json.dumps`, `zlib.compress`, b64) only read
the stripped copy. -/

/-- A Python value: scalar or reference into the heap. -/
inductive PVal where
  | vnum (n : Int)
  | vstr (s : String)
  | vnone
  | ref (a : Nat)
deriving DecidableEq

/-- A heap object: a dict, a list, or an opaque uploaded-file object. -/
inductive PObj where
  | dict (kvs : List (String × PVal))
  | list (xs : List PVal)
  | file
deriving DecidableEq

/-- Read the object at an address. -/
def heapGet (h : List PObj) (a : Nat) : Option PObj := h[a]?

/-- Dict key lookup (first binding; insertion order preserved). -/
def lookupPVal : List (String × PVal) → String → Option PVal
  | [], _ => none
  | (k, v) :: tl, key => if k = key then some v else lookupPVal tl key

/-- `{**sc, "shots": v}`: rebind a key in place, or append it. -/
def dictSet : List (String × PVal) → String → PVal → List (String × PVal)
  | [], k, v => [(k, v)]
  | (k1, v1) :: tl, k, v => if k1 = k then (k1, v) :: tl else (k1, v1) :: dictSet tl k v

/-- `{k: v for k, v in sh.items() if k != "file"}` (line 31): `sh`
must be a dict; a fresh dict without the `file` binding is allocated at
the end of the heap. -/
def stripShotH (h : List PObj) (shv : PVal) : Option (List PObj × PVal) :=
  match shv with
  | .ref a =>
    match heapGet h a with
    | some (.dict kvs) =>
      some (h ++ [.dict (kvs.filter (fun kv => kv.1 ≠ "file"))], .ref h.length)
    | _ => none
  | _ => none

/-- The inner comprehension over `sc["shots"]`'s elements. -/
def stripShotsH (h : List PObj) : List PVal → Option (List PObj × List PVal)
  | [] => some (h, [])
  | shv :: rest =>
    match stripShotH h shv with
    | some (h1, v1) =>
      match stripShotsH h1 rest with
      | some (h2, vs) => some (h2, v1 :: vs)
      | none => none
    | none => none

/-- `{**sc, "shots": [... for sh in sc["shots"]]}` (lines 29-32):
`sc` must be a dict with a `shots` key holding a list (a missing key
raises `KeyError`; iterating a non-list `shots` value is outside the
model).  A fresh shots list and a fresh scene dict are allocated. -/
def stripSceneH (h : List PObj) (scv : PVal) : Option (List PObj × PVal) :=
  match scv with
  | .ref a =>
    match heapGet h a with
    | some (.dict kvs) =>
      match lookupPVal kvs "shots" with
      | some (.ref la) =>
        match heapGet h la with
        | some (.list shotRefs) =>
          match stripShotsH h shotRefs with
          | some (h1, newRefs) =>
            some (h1 ++ [.list newRefs] ++
                    [.dict (dictSet kvs "shots" (.ref (h1.length)))],
                  .ref (h1.length + 1))
          | none => none
        | _ => none
      | _ => none
    | _ => none
  | _ => none

/-- The outer comprehension `[... for sc in obj]`. -/
def stripScenesH (h : List PObj) : List PVal → Option (List PObj × List PVal)
  | [] => some (h, [])
  | scv :: rest =>
    match stripSceneH h scv with
    | some (h1, v1) =>
      match stripScenesH h1 rest with
      | some (h2, vs) => some (h2, v1 :: vs)
      | none => none
    | none => none

/-- `strip_files(obj)` (lines 27-34): the argument must be a list of
scenes; a fresh list of the fresh scene copies is allocated. -/
def strip_files_heap (h : List PObj) (v : PVal) : Option (List PObj × PVal) :=
  match v with
  | .ref a =>
    match heapGet h a with
    | some (.list sceneRefs) =>
      match stripScenesH h sceneRefs with
      | some (h1, newRefs) => some (h1 ++ [.list newRefs], .ref h1.length)
      | none => none
    | _ => none
  | _ => none

mutual

/-- Serialize a heap value to JSON, as `json.dumps` reads it: scalars map
directly, dict and list references are followed, and an uploaded-file
object is not JSON serializable (`dumps` raises).  The fuel bounds the
read depth; it never touches the heap. -/
def pyValToJson : Nat → List PObj → PVal → Option Json
  | 0, _, _ => none
  | fuel + 1, h, v =>
    match v with
    | .vnum n => some (.num n)
    | .vstr s => some (.str s)
    | .vnone => some .null
    | .ref a =>
      match heapGet h a with
      | some (.dict kvs) => (pyPairsToJson fuel h kvs).map .obj
      | some (.list xs) => (pyItemsToJson fuel h xs).map .arr
      | _ => none

/-- Serialize a dict's bindings in insertion order. -/
def pyPairsToJson : Nat → List PObj → List (String × PVal) → Option JsonObj
  | _, _, [] => some .nil
  | 0, _, _ :: _ => none
  | fuel + 1, h, (k, v) :: tl =>
    match pyValToJson fuel h v, pyPairsToJson fuel h tl with
    | some j, some o => some (.cons k j o)
    | _, _ => none

/-- Serialize a list's elements in order. -/
def pyItemsToJson : Nat → List PObj → List PVal → Option JsonList
  | _, _, [] => some .nil
  | 0, _, _ :: _ => none
  | fuel + 1, h, v :: tl =>
    match pyValToJson fuel h v, pyItemsToJson fuel h tl with
    | some j, some l => some (.cons j l)
    | _, _ => none

end

/-- A read-depth bound ample for any tree-shaped heap value: total entry
count of the heap plus slack. -/
def heapSize : List PObj → Nat
  | [] => 2
  | o :: t =>
    (match o with
     | .dict kvs => kvs.length + 2
     | .list xs => xs.length + 2
     | .file => 2) + heapSize t

/-- `encode_scenes` at the heap level (lines 25-38): strip the file
bindings into a detached copy, then serialize that copy and produce the
token with the pure byte-level stages.  Returns the final heap, the
reference to the stripped copy, and the token. -/
def encode_scenes_heap (h : List PObj) (v : PVal) :
    Option (List PObj × PVal × String) :=
  match strip_files_heap h v with
  | some (h1, out) =>
    match pyValToJson (heapSize h1) h1 out with
    | some j =>
      some (h1, out, b64Encode (zlibCompress (utf8Encode (jsonDumps j))))
    | none => none
  | none => none

/-- Every element is a reference at an address at or above `bound`. -/
def freshShotRefs (bound : Nat) (vs : List PVal) : Bool :=
  vs.all (fun v =>
    match v with
    | .ref a => bound ≤ a
    | _ => false)

/-- The address holds a list all of whose elements are references at or
above `bound`. -/
def shotsListFreshAt (bound : Nat) (h : List PObj) (la : Nat) : Bool :=
  match heapGet h la with
  | some (.list refs) => freshShotRefs bound refs
  | _ => false

/-- The address holds a dict whose `shots` binding is a list reference at
or above `bound` with all its shot records at or above `bound`. -/
def sceneDictFreshAt (bound : Nat) (h : List PObj) (a : Nat) : Bool :=
  match heapGet h a with
  | some (.dict kvs) =>
    (match lookupPVal kvs "shots" with
     | some (.ref la) => decide (bound ≤ la) && shotsListFreshAt bound h la
     | _ => false)
  | _ => false

/-- A stripped scene: a dict reference at or above `bound` whose `shots`
binding is a list reference at or above `bound` all of whose shot records
are references at or above `bound`. -/
def freshSceneRef (bound : Nat) (h : List PObj) (v : PVal) : Bool :=
  match v with
  | .ref a => decide (bound ≤ a) && sceneDictFreshAt bound h a
  | _ => false

/-- The stripped copy is wholly detached from addresses below `bound`:
the scenes list, every scene dict, every shots list and every shot dict
live at addresses allocated at or above `bound`. -/
def stripOutputFresh (bound : Nat) (h : List PObj) (out : PVal) : Bool :=
  match out with
  | .ref a =>
    decide (bound ≤ a) &&
    (match heapGet h a with
     | some (.list refs) => refs.all (freshSceneRef bound h)
     | _ => false)
  | _ => false

/-! ## The decoded image of a project -/

/-- The shot dict as `decode_scenes` returns it: the stripped bindings
followed by the defaulted trailing `file: null`. -/
def shotToJsonDecoded (α : Type) (sh : Shot α) : Json :=
  .obj (.cons "id" (.num sh.id)
    (.cons "type" (optStrToJson sh.type)
      (.cons "alt_type" (optStrToJson sh.alt_type)
        (.cons "description" (.str sh.description)
          (.cons "file" .null .nil)))))

/-- The scene dict as `decode_scenes` returns it: all scene bindings in
order, the shots list holding the decoded shot dicts. -/
def sceneToJsonDecoded (α : Type) (sc : Scene α) : Json :=
  .obj (.cons "id" (.num sc.id)
    (.cons "title" (.str sc.title)
      (.cons "hook" (.str sc.hook)
        (.cons "problem" (.str sc.problem)
          (.cons "conflict" (.str sc.conflict)
            (.cons "resolution" (.str sc.resolution)
              (.cons "shots" (.arr (jsonListOfList (sc.shots.map (shotToJsonDecoded α))))
                .nil)))))))

/-- The dict image of a live shot: defined exactly when the shot holds no
live upload (a file object is not a JSON value), in which case the `file`
binding is the explicit null marker. -/
def shotDictImage (α : Type) (sh : Shot α) : Option Json :=
  match sh.file with
  | none => some (shotToJsonDecoded α sh)
  | some _ => none

/-- The dict images of a shot list, if all exist. -/
def shotsDictImage (α : Type) : List (Shot α) → Option JsonList
  | [] => some .nil
  | sh :: rest =>
    match shotDictImage α sh with
    | some j => (shotsDictImage α rest).map (.cons j)
    | none => none

/-- The dict image of a live scene, if its shots all have one. -/
def sceneDictImage (α : Type) (sc : Scene α) : Option Json :=
  (shotsDictImage α sc.shots).map (fun L =>
    .obj (.cons "id" (.num sc.id)
      (.cons "title" (.str sc.title)
        (.cons "hook" (.str sc.hook)
          (.cons "problem" (.str sc.problem)
            (.cons "conflict" (.str sc.conflict)
              (.cons "resolution" (.str sc.resolution)
                (.cons "shots" (.arr L) .nil))))))))

/-- The dict images of a scene list, if all exist. -/
def scenesDictImage (α : Type) : List (Scene α) → Option JsonList
  | [] => some .nil
  | sc :: rest =>
    match sceneDictImage α sc with
    | some j => (scenesDictImage α rest).map (.cons j)
    | none => none

/-- The dict image of a whole project: the Python value the project is,
seen as JSON — defined exactly when no shot holds a live upload. -/
def projectDictImage (α : Type) (P : List (Scene α)) : Option Json :=
  (scenesDictImage α P).map .arr

/-- A shot record carries an explicit `file` binding (vacuous for
non-dict values, which `decode_scenes` can never return inside a shots
list). -/
def shotHasFileKeyB (j : Json) : Bool :=
  match j with
  | .obj kvs => objHasKey kvs "file"
  | _ => true

/-- Every shot record of a scene's `shots` list has an explicit `file`
binding. -/
def sceneShotsHaveFileKey (sc : Json) : Bool :=
  match sc with
  | .obj kvs =>
    (match objLookup kvs "shots" with
     | some (.arr shots) => jsonListAll shotHasFileKeyB shots
     | _ => true)
  | _ => true

/-- A concrete example project heap: address 0 a shot dict holding a live
uploaded file (address 1), address 2 the shots list, address 3 the scene
dict, address 4 the scenes list. -/
def exampleHeap : List PObj :=
  [ .dict [("id", .vnum 1), ("type", .vstr "Wide"), ("alt_type", .vnone),
           ("description", .vstr "x"), ("file", .ref 1)],
    .file,
    .list [.ref 0],
    .dict [("id", .vnum 1), ("title", .vstr "A"), ("hook", .vstr ""),
           ("problem", .vstr ""), ("conflict", .vstr ""), ("resolution", .vstr ""),
           ("shots", .ref 2)],
    .list [.ref 3] ]

/-- The example heap after `encode_scenes`: the original five objects
unchanged, followed by the four freshly allocated detached copies. -/
def exampleHeapAfter : List PObj :=
  exampleHeap ++
  [ .dict [("id", .vnum 1), ("type", .vstr "Wide"), ("alt_type", .vnone),
           ("description", .vstr "x")],
    .list [.ref 5],
    .dict [("id", .vnum 1), ("title", .vstr "A"), ("hook", .vstr ""),
           ("problem", .vstr ""), ("conflict", .vstr ""), ("resolution", .vstr ""),
           ("shots", .ref 6)],
    .list [.ref 7] ]

/-! ## Theorems -/

/-- `Char.toNat` of `Char.ofNat` at a valid code point. -/
theorem toNat_charOfNat {v : Nat} (h : Nat.isValidChar v) : (Char.ofNat v).toNat = v := by
  rw [Char.ofNat, dif_pos h]
  rfl

/-- `Char.toNat` of `Char.ofNat` below the surrogate range. -/
theorem toNat_charOfNat_lt {v : Nat} (h : v < 55296) : (Char.ofNat v).toNat = v :=
  toNat_charOfNat (Or.inl h)

/-- Code of the character of a decimal digit. -/
theorem digitChar_toNat {d : Nat} (h : d < 10) : (digitChar d).toNat = 48 + d := by
  unfold digitChar
  exact toNat_charOfNat_lt (by omega)

/-- `digitsVal` over an appended digit. -/
theorem digitsVal_append_digit (ds : List Char) (c : Char) :
    digitsVal (ds ++ [c]) = digitsVal ds * 10 + (c.toNat - 48) := by
  simp [digitsVal, List.foldl_append]

/-- Characters produced by `natCharsAux` are decimal digits. -/
theorem natCharsAux_digits (fuel n : Nat) (h : n < fuel) :
    ∀ c ∈ natCharsAux fuel n, isDigitChar c = true := by
  induction fuel generalizing n with
  | zero => omega
  | succ fuel ih =>
    intro c hc
    simp only [natCharsAux] at hc
    by_cases h10 : n < 10
    · simp [h10] at hc
      subst hc
      simp [isDigitChar, digitChar_toNat h10]
      omega
    · simp [h10] at hc
      rcases hc with hc | hc
      · exact ih (n / 10) (by omega) c hc
      · subst hc
        simp [isDigitChar, digitChar_toNat (Nat.mod_lt n (by omega))]
        omega

/-- `natCharsAux` produces a nonempty list. -/
theorem natCharsAux_ne_nil (fuel n : Nat) (h : n < fuel) :
    natCharsAux fuel n ≠ [] := by
  cases fuel with
  | zero => omega
  | succ fuel =>
    simp only [natCharsAux]
    by_cases h10 : n < 10 <;> simp [h10]

/-- `digitsVal` recovers the number printed by `natCharsAux`. -/
theorem digitsVal_natCharsAux (fuel n : Nat) (h : n < fuel) :
    digitsVal (natCharsAux fuel n) = n := by
  induction fuel generalizing n with
  | zero => omega
  | succ fuel ih =>
    simp only [natCharsAux]
    by_cases h10 : n < 10
    · simp [h10, digitsVal, digitChar_toNat h10]
    · simp only [h10, if_false]
      rw [digitsVal_append_digit, ih (n / 10) (by omega),
        digitChar_toNat (Nat.mod_lt n (by omega))]
      omega

/-- `digitsVal` recovers the number printed by `natChars`. -/
theorem digitsVal_natChars (n : Nat) : digitsVal (natChars n) = n :=
  digitsVal_natCharsAux (n + 1) n (Nat.lt_succ_self n)

/-- Upper bound on a character's code point. -/
theorem char_toNat_lt (c : Char) : c.toNat < 1114112 := by
  have hv : Nat.isValidChar c.toNat := c.valid
  rcases hv with h | ⟨_, h⟩ <;> omega

/-- A character's code point is never a surrogate. -/
theorem char_not_surrogate (c : Char) : ¬(55296 ≤ c.toNat ∧ c.toNat ≤ 57343) := by
  have hv : Nat.isValidChar c.toNat := c.valid
  rcases hv with h | ⟨h1, h2⟩ <;> omega

/-- `charUtf8` is never empty. -/
theorem charUtf8_ne_nil (c : Char) : charUtf8 c ≠ [] := by
  simp only [charUtf8]
  split_ifs <;> simp

set_option maxHeartbeats 1000000 in
/-- Decoding one step of the UTF-8 bytes of a character peels off exactly
that character. -/
theorem utf8Step_charUtf8 (c : Char) (rest : List Nat) :
    utf8Step (charUtf8 c ++ rest) = some (c, rest) := by
  have hub := char_toNat_lt c
  have hsur := char_not_surrogate c
  by_cases h1 : c.toNat < 128
  · have e1 : charUtf8 c = [c.toNat] := by
      unfold charUtf8
      rw [if_pos h1]
    rw [e1, List.cons_append, List.nil_append]
    unfold utf8Step
    simp only
    rw [if_pos h1, Char.ofNat_toNat]
  · by_cases h2 : c.toNat < 2048
    · have e1 : charUtf8 c = [192 + c.toNat / 64, 128 + c.toNat % 64] := by
        unfold charUtf8
        rw [if_neg h1, if_pos h2]
      rw [e1, List.cons_append, List.cons_append, List.nil_append]
      unfold utf8Step
      simp only
      rw [if_neg (by omega), if_pos (by omega), if_pos (by omega)]
      have harg : (192 + c.toNat / 64 - 192) * 64 + (128 + c.toNat % 64 - 128) = c.toNat := by
        omega
      rw [harg, Char.ofNat_toNat]
    · by_cases h3 : c.toNat < 65536
      · have e1 : charUtf8 c =
            [224 + c.toNat / 4096, 128 + c.toNat / 64 % 64, 128 + c.toNat % 64] := by
          unfold charUtf8
          rw [if_neg h1, if_neg h2, if_pos h3]
        rw [e1, List.cons_append, List.cons_append, List.cons_append, List.nil_append]
        unfold utf8Step
        simp only
        rw [if_neg (by omega), if_neg (by omega), if_pos (by omega),
          if_pos (by exact ⟨by omega, by omega, by omega, by omega⟩)]
        have harg : (224 + c.toNat / 4096 - 224) * 4096 + (128 + c.toNat / 64 % 64 - 128) * 64 +
            (128 + c.toNat % 64 - 128) = c.toNat := by omega
        rw [if_pos (by rw [harg]; exact ⟨by omega, hsur⟩), harg, Char.ofNat_toNat]
      · have e1 : charUtf8 c = [240 + c.toNat / 262144, 128 + c.toNat / 4096 % 64,
            128 + c.toNat / 64 % 64, 128 + c.toNat % 64] := by
          unfold charUtf8
          rw [if_neg h1, if_neg h2, if_neg h3]
        rw [e1, List.cons_append, List.cons_append, List.cons_append, List.cons_append,
          List.nil_append]
        unfold utf8Step
        simp only
        rw [if_neg (by omega), if_neg (by omega), if_neg (by omega), if_pos (by omega),
          if_pos (by exact ⟨by omega, by omega, by omega, by omega, by omega, by omega⟩)]
        have harg : (240 + c.toNat / 262144 - 240) * 262144 +
            (128 + c.toNat / 4096 % 64 - 128) * 4096 +
            (128 + c.toNat / 64 % 64 - 128) * 64 + (128 + c.toNat % 64 - 128) = c.toNat := by
          omega
        rw [if_pos (by rw [harg]; exact ⟨by omega, by omega⟩), harg, Char.ofNat_toNat]

/-- Decoding the UTF-8 bytes of a character list recovers the list. -/
theorem utf8DecodeAux_utf8Bytes (cs : List Char) (fuel : Nat)
    (h : (utf8Bytes cs).length ≤ fuel) :
    utf8DecodeAux fuel (utf8Bytes cs) = some cs := by
  induction cs generalizing fuel with
  | nil => cases fuel <;> rfl
  | cons c cs ih =>
    rw [utf8Bytes] at h ⊢
    obtain ⟨x, xs, hx⟩ : ∃ x xs, charUtf8 c = x :: xs := by
      cases hc : charUtf8 c with
      | nil => exact absurd hc (charUtf8_ne_nil c)
      | cons a as => exact ⟨a, as, rfl⟩
    have hlen : 1 + (utf8Bytes cs).length ≤ fuel := by
      rw [hx] at h
      simp [List.length_append] at h
      omega
    rcases fuel with _ | fuel
    · omega
    · rw [hx, List.cons_append, utf8DecodeAux, ← List.cons_append, ← hx,
        utf8Step_charUtf8]
      simp only
      rw [ih fuel (by omega), Option.map_some']

/-- UTF-8 round-trip: Python `s.encode().decode()` is the identity. -/
theorem utf8Decode_utf8Encode (s : String) : utf8Decode (utf8Encode s) = some s := by
  rw [utf8Decode, utf8Encode, utf8DecodeAux_utf8Bytes s.data _ (Nat.le_refl _),
    Option.map_some']


/-- UTF-8 bytes of one character are bytes. -/
theorem charUtf8_lt (c : Char) : ∀ b ∈ charUtf8 c, b < 256 := by
  have hub := char_toNat_lt c
  intro b hb
  by_cases h1 : c.toNat < 128
  · simp [charUtf8, h1] at hb
    omega
  · by_cases h2 : c.toNat < 2048
    · simp [charUtf8, h1, h2] at hb
      rcases hb with hb | hb <;> omega
    · by_cases h3 : c.toNat < 65536
      · simp [charUtf8, h1, h2, h3] at hb
        rcases hb with hb | hb | hb <;> omega
      · simp [charUtf8, h1, h2, h3] at hb
        rcases hb with hb | hb | hb | hb <;> omega

/-- UTF-8 bytes of a character list are bytes. -/
theorem utf8Bytes_lt (cs : List Char) : ∀ b ∈ utf8Bytes cs, b < 256 := by
  induction cs with
  | nil => simp [utf8Bytes]
  | cons c cs ih =>
    intro b hb
    rw [utf8Bytes] at hb
    rcases List.mem_append.mp hb with h | h
    · exact charUtf8_lt c b h
    · exact ih b h

/-- UTF-8 bytes of a string are bytes. -/
theorem utf8Encode_lt (s : String) : ∀ b ∈ utf8Encode s, b < 256 :=
  utf8Bytes_lt s.data

/-- The base64 alphabet map inverts its indexing, and alphabet characters
are ASCII and distinct from the padding character. -/
theorem b64Char_spec : ∀ i < 64, b64Idx (b64Char i) = some i ∧
    (b64Char i).toNat < 128 ∧ b64Char i ≠ '=' := by
  decide

/-- Decoding groups of the base64 encoding recovers the bytes. -/
theorem b64DecodeGroups_encodeAux : ∀ bs : List Nat, (∀ b ∈ bs, b < 256) →
    b64DecodeGroups (b64EncodeAux bs) = some bs
  | [], _ => by rfl
  | [a], h => by
    have ha : a < 256 := h a (by simp)
    have s1 := b64Char_spec (a / 4) (by omega)
    have s2 := b64Char_spec (a % 4 * 16) (by omega)
    rw [show b64EncodeAux [a] = [b64Char (a / 4), b64Char (a % 4 * 16), '=', '='] from rfl,
      b64DecodeGroups, if_pos rfl, if_pos ⟨rfl, rfl⟩]
    rw [s1.1, s2.1]
    have harith : a / 4 * 4 + a % 4 * 16 / 16 = a := by omega
    show some [a / 4 * 4 + a % 4 * 16 / 16] = some [a]
    rw [harith]
  | [a, b], h => by
    have ha : a < 256 := h a (by simp)
    have hb : b < 256 := h b (by simp)
    have s1 := b64Char_spec (a / 4) (by omega)
    have s2 := b64Char_spec (a % 4 * 16 + b / 16) (by omega)
    have s3 := b64Char_spec (b % 16 * 4) (by omega)
    rw [show b64EncodeAux [a, b] =
        [b64Char (a / 4), b64Char (a % 4 * 16 + b / 16), b64Char (b % 16 * 4), '='] from rfl,
      b64DecodeGroups, if_neg s3.2.2, if_pos rfl, if_pos rfl]
    rw [s1.1, s2.1, s3.1]
    have h1 : a / 4 * 4 + (a % 4 * 16 + b / 16) / 16 = a := by omega
    have h2 : (a % 4 * 16 + b / 16) % 16 * 16 + b % 16 * 4 / 4 = b := by omega
    show some [a / 4 * 4 + (a % 4 * 16 + b / 16) / 16,
      (a % 4 * 16 + b / 16) % 16 * 16 + b % 16 * 4 / 4] = some [a, b]
    rw [h1, h2]
  | a :: b :: c :: rest, h => by
    have ha : a < 256 := h a (by simp)
    have hb : b < 256 := h b (by simp)
    have hc : c < 256 := h c (by simp)
    have s1 := b64Char_spec (a / 4) (by omega)
    have s2 := b64Char_spec (a % 4 * 16 + b / 16) (by omega)
    have s3 := b64Char_spec (b % 16 * 4 + c / 64) (by omega)
    have s4 := b64Char_spec (c % 64) (by omega)
    have ih := b64DecodeGroups_encodeAux rest (fun x hx => h x (by simp [hx]))
    rw [show b64EncodeAux (a :: b :: c :: rest) =
        b64Char (a / 4) :: b64Char (a % 4 * 16 + b / 16) :: b64Char (b % 16 * 4 + c / 64) ::
          b64Char (c % 64) :: b64EncodeAux rest from rfl,
      b64DecodeGroups, if_neg s3.2.2, if_neg s4.2.2]
    rw [s1.1, s2.1, s3.1, s4.1, ih]
    have h1 : a / 4 * 4 + (a % 4 * 16 + b / 16) / 16 = a := by omega
    have h2 : (a % 4 * 16 + b / 16) % 16 * 16 + (b % 16 * 4 + c / 64) / 4 = b := by omega
    have h3 : (b % 16 * 4 + c / 64) % 4 * 64 + c % 64 = c := by omega
    show some ((a / 4 * 4 + (a % 4 * 16 + b / 16) / 16) ::
      ((a % 4 * 16 + b / 16) % 16 * 16 + (b % 16 * 4 + c / 64) / 4) ::
      ((b % 16 * 4 + c / 64) % 4 * 64 + c % 64) :: rest) = some (a :: b :: c :: rest)
    rw [h1, h2, h3]

/-- All characters of a base64 encoding survive the alphabet filter. -/
theorem b64EncodeAux_filter : ∀ bs : List Nat, (∀ b ∈ bs, b < 256) →
    (b64EncodeAux bs).filter (fun c => (b64Idx c).isSome || c = '=') = b64EncodeAux bs
  | [], _ => by rfl
  | [a], h => by
    have ha : a < 256 := h a (by simp)
    have s1 := b64Char_spec (a / 4) (by omega)
    have s2 := b64Char_spec (a % 4 * 16) (by omega)
    rw [show b64EncodeAux [a] = [b64Char (a / 4), b64Char (a % 4 * 16), '=', '='] from rfl]
    simp [List.filter, s1.1, s2.1]
  | [a, b], h => by
    have ha : a < 256 := h a (by simp)
    have hb : b < 256 := h b (by simp)
    have s1 := b64Char_spec (a / 4) (by omega)
    have s2 := b64Char_spec (a % 4 * 16 + b / 16) (by omega)
    have s3 := b64Char_spec (b % 16 * 4) (by omega)
    rw [show b64EncodeAux [a, b] =
        [b64Char (a / 4), b64Char (a % 4 * 16 + b / 16), b64Char (b % 16 * 4), '='] from rfl]
    simp [List.filter, s1.1, s2.1, s3.1]
  | a :: b :: c :: rest, h => by
    have ha : a < 256 := h a (by simp)
    have hb : b < 256 := h b (by simp)
    have hc : c < 256 := h c (by simp)
    have s1 := b64Char_spec (a / 4) (by omega)
    have s2 := b64Char_spec (a % 4 * 16 + b / 16) (by omega)
    have s3 := b64Char_spec (b % 16 * 4 + c / 64) (by omega)
    have s4 := b64Char_spec (c % 64) (by omega)
    have ih := b64EncodeAux_filter rest (fun x hx => h x (by simp [hx]))
    rw [show b64EncodeAux (a :: b :: c :: rest) =
        b64Char (a / 4) :: b64Char (a % 4 * 16 + b / 16) :: b64Char (b % 16 * 4 + c / 64) ::
          b64Char (c % 64) :: b64EncodeAux rest from rfl]
    simp only [List.filter, s1.1, s2.1, s3.1, s4.1, Option.isSome_some, Bool.true_or, ih]

/-- All characters of a base64 encoding are ASCII. -/
theorem b64EncodeAux_ascii : ∀ bs : List Nat, (∀ b ∈ bs, b < 256) →
    (b64EncodeAux bs).all (fun c => c.toNat < 128) = true
  | [], _ => by rfl
  | [a], h => by
    have ha : a < 256 := h a (by simp)
    have s1 := b64Char_spec (a / 4) (by omega)
    have s2 := b64Char_spec (a % 4 * 16) (by omega)
    rw [show b64EncodeAux [a] = [b64Char (a / 4), b64Char (a % 4 * 16), '=', '='] from rfl]
    simp [List.all, s1.2.1, s2.2.1]
  | [a, b], h => by
    have ha : a < 256 := h a (by simp)
    have hb : b < 256 := h b (by simp)
    have s1 := b64Char_spec (a / 4) (by omega)
    have s2 := b64Char_spec (a % 4 * 16 + b / 16) (by omega)
    have s3 := b64Char_spec (b % 16 * 4) (by omega)
    rw [show b64EncodeAux [a, b] =
        [b64Char (a / 4), b64Char (a % 4 * 16 + b / 16), b64Char (b % 16 * 4), '='] from rfl]
    simp [List.all, s1.2.1, s2.2.1, s3.2.1]
  | a :: b :: c :: rest, h => by
    have ha : a < 256 := h a (by simp)
    have hb : b < 256 := h b (by simp)
    have hc : c < 256 := h c (by simp)
    have s1 := b64Char_spec (a / 4) (by omega)
    have s2 := b64Char_spec (a % 4 * 16 + b / 16) (by omega)
    have s3 := b64Char_spec (b % 16 * 4 + c / 64) (by omega)
    have s4 := b64Char_spec (c % 64) (by omega)
    have ih := b64EncodeAux_ascii rest (fun x hx => h x (by simp [hx]))
    rw [show b64EncodeAux (a :: b :: c :: rest) =
        b64Char (a / 4) :: b64Char (a % 4 * 16 + b / 16) :: b64Char (b % 16 * 4 + c / 64) ::
          b64Char (c % 64) :: b64EncodeAux rest from rfl]
    simp [List.all, s1.2.1, s2.2.1, s3.2.1, s4.2.1, ih]

/-- Base64 round-trip: `urlsafe_b64decode(urlsafe_b64encode(bs))` is `bs`. -/
theorem b64Decode_b64Encode (bs : List Nat) (h : ∀ b ∈ bs, b < 256) :
    b64Decode (b64Encode bs) = some bs := by
  rw [b64Decode, b64Encode]
  rw [if_pos (show ((String.mk (b64EncodeAux bs)).data.all (fun c => c.toNat < 128)) = true
    from b64EncodeAux_ascii bs h)]
  show b64DecodeGroups ((b64EncodeAux bs).filter _) = some bs
  rw [b64EncodeAux_filter bs h, b64DecodeGroups_encodeAux bs h]

/-- The adler32 running sums stay below the modulus. -/
theorem adler_foldl_lt (bs : List Nat) (ab : Nat × Nat) (h1 : ab.1 < 65521)
    (h2 : ab.2 < 65521) :
    (bs.foldl adlerStep ab).1 < 65521 ∧ (bs.foldl adlerStep ab).2 < 65521 := by
  induction bs generalizing ab with
  | nil => exact ⟨h1, h2⟩
  | cons b bs ih =>
    rw [List.foldl_cons]
    exact ih _ (by simp only [adlerStep]; omega) (by simp only [adlerStep]; omega)

/-- The adler32 checksum fits in 32 bits. -/
theorem adler32_lt (bs : List Nat) : adler32 bs < 4294967296 := by
  have h := adler_foldl_lt bs (1, 0) (by omega) (by omega)
  unfold adler32
  omega

/-- Stored blocks are at least as long as the data they carry. -/
theorem le_storedBlocks_length : ∀ fc (data : List Nat), data.length < fc →
    data.length ≤ (storedBlocks fc data).length
  | 0, _, h => by omega
  | fc + 1, data, h => by
    rw [storedBlocks]
    by_cases hlen : data.length ≤ 65535
    · rw [if_pos hlen]
      simp only [List.length_cons]
      omega
    · rw [if_neg hlen]
      have ih := le_storedBlocks_length fc (data.drop 65535)
        (by rw [List.length_drop]; omega)
      simp only [List.length_cons, List.length_append, List.length_take,
        List.length_drop] at ih ⊢
      omega

/-- Inflating the stored blocks of `data`, followed by anything, yields
`data` and the trailing bytes. -/
theorem inflateStored_storedBlocks : ∀ fc (data tail : List Nat) fd, data.length < fc →
    data.length < fd →
    inflateStored fd (storedBlocks fc data ++ tail) = some (data, tail)
  | 0, _, _, _, h, _ => by omega
  | fc + 1, data, tail, fd, h, hfd => by
    rcases fd with _ | g
    · omega
    · rw [storedBlocks]
      by_cases hlen : data.length ≤ 65535
      · rw [if_pos hlen]
        rw [List.cons_append, List.cons_append, List.cons_append, List.cons_append,
          List.cons_append, inflateStored, if_pos (by omega),
          if_pos (⟨by omega, by rw [List.length_append]; omega⟩ :
            (65535 - data.length) % 256 + 256 * ((65535 - data.length) / 256) =
              65535 - (data.length % 256 + 256 * (data.length / 256)) ∧
            data.length % 256 + 256 * (data.length / 256) ≤ (data ++ tail).length),
          if_pos (by omega)]
        have hl : data.length % 256 + 256 * (data.length / 256) = data.length := by omega
        rw [hl, List.take_left, List.drop_left]
      · rw [if_neg hlen]
        have htk : (data.take 65535).length = 65535 := by
          rw [List.length_take]
          omega
        rw [List.cons_append, List.cons_append, List.cons_append, List.cons_append,
          List.cons_append, List.append_assoc, inflateStored, if_pos (by omega),
          if_pos (⟨by omega, by
            simp only [List.length_append, htk]
            omega⟩ :
            (0 : Nat) + 256 * 0 = 65535 - (255 + 256 * 255) ∧
            255 + 256 * 255 ≤ (data.take 65535 ++ (storedBlocks fc (data.drop 65535) ++ tail)).length),
          if_neg (by omega)]
        have h255 : (255 : Nat) + 256 * 255 = 65535 := by omega
        rw [h255, List.take_left' htk, List.drop_left' htk,
          inflateStored_storedBlocks fc (data.drop 65535) tail g
            (by rw [List.length_drop]; omega) (by rw [List.length_drop]; omega)]
        simp only
        rw [List.take_append_drop]

/-- zlib round-trip: `zlib.decompress(zlib.compress(data))` is `data`. -/
theorem zlibDecompress_zlibCompress (data : List Nat) :
    zlibDecompress (zlibCompress data) = some data := by
  rw [zlibCompress]
  unfold zlibDecompress
  simp only
  rw [if_pos (by decide)]
  have hlen : data.length <
      (storedBlocks (data.length + 1) data ++ adler32Bytes data).length + 1 := by
    have := le_storedBlocks_length (data.length + 1) data (by omega)
    rw [List.length_append]
    omega
  rw [inflateStored_storedBlocks (data.length + 1) data (adler32Bytes data) _ (by omega) hlen]
  simp only [adler32Bytes]
  rw [if_pos (by have := adler32_lt data; omega)]

/-- Stored blocks of byte data are bytes. -/
theorem storedBlocks_bytes : ∀ fc (data : List Nat), (∀ b ∈ data, b < 256) →
    ∀ b ∈ storedBlocks fc data, b < 256
  | 0, _, _, b, hb => by simp [storedBlocks] at hb
  | fc + 1, data, h, b, hb => by
    rw [storedBlocks] at hb
    by_cases hlen : data.length ≤ 65535
    · rw [if_pos hlen] at hb
      simp only [List.mem_cons] at hb
      rcases hb with hb | hb | hb | hb | hb | hb
      · omega
      · omega
      · omega
      · omega
      · omega
      · exact h b hb
    · rw [if_neg hlen] at hb
      simp only [List.mem_cons, List.mem_append] at hb
      rcases hb with hb | hb | hb | hb | hb | hb | hb
      · omega
      · omega
      · omega
      · omega
      · omega
      · exact h b (List.take_subset 65535 data hb)
      · exact storedBlocks_bytes fc (data.drop 65535)
          (fun x hx => h x (List.drop_subset 65535 data hx)) b hb

/-- A compressed stream of byte data consists of bytes. -/
theorem zlibCompress_bytes (data : List Nat) (h : ∀ b ∈ data, b < 256) :
    ∀ b ∈ zlibCompress data, b < 256 := by
  intro b hb
  rw [zlibCompress] at hb
  simp only [List.mem_cons, List.mem_append] at hb
  rcases hb with hb | hb | hb | hb
  · omega
  · omega
  · exact storedBlocks_bytes (data.length + 1) data h b hb
  · simp only [adler32Bytes, List.mem_cons] at hb
    rcases hb with hb | hb | hb | hb | hb <;> first | omega | simp at hb

/-- Characters are equal iff their code points are. -/
theorem char_eq_iff_toNat {c d : Char} : c = d ↔ c.toNat = d.toNat := by
  constructor
  · intro h
    rw [h]
  · intro h
    rw [← Char.ofNat_toNat c, ← Char.ofNat_toNat d, h]

/-- Characters with distinct code points are distinct. -/
theorem char_ne_of_toNat_ne {c d : Char} (h : c.toNat ≠ d.toNat) : c ≠ d :=
  fun he => h (char_eq_iff_toNat.mp he)

/-- `skipWs` keeps a non-whitespace head. -/
theorem skipWs_cons {c : Char} (cs : List Char) (h : isWsChar c = false) :
    skipWs (c :: cs) = c :: cs := by
  rw [skipWs, h]
  simp

/-- `skipWs` drops a whitespace head. -/
theorem skipWs_ws_cons {c : Char} (cs : List Char) (h : isWsChar c = true) :
    skipWs (c :: cs) = skipWs cs := by
  rw [skipWs, h]
  simp

/-- A digit character is not whitespace, a bracket, a brace or a sign. -/
theorem digit_head_facts {c : Char} (h : isDigitChar c = true) :
    isWsChar c = false ∧ c ≠ ']' ∧ c ≠ '\x7d' ∧ c ≠ 'n' ∧ c ≠ 't' ∧ c ≠ 'f' ∧
      c ≠ '"' ∧ c ≠ '[' ∧ c ≠ '\x7b' ∧ c ≠ '-' ∧ c ≠ '.' ∧ c ≠ 'e' ∧ c ≠ 'E' := by
  simp only [isDigitChar, Bool.and_eq_true, decide_eq_true_eq] at h
  refine ⟨?_, char_ne_of_toNat_ne (show c.toNat ≠ 93 by omega),
    char_ne_of_toNat_ne (show c.toNat ≠ 125 by omega),
    char_ne_of_toNat_ne (show c.toNat ≠ 110 by omega),
    char_ne_of_toNat_ne (show c.toNat ≠ 116 by omega),
    char_ne_of_toNat_ne (show c.toNat ≠ 102 by omega),
    char_ne_of_toNat_ne (show c.toNat ≠ 34 by omega),
    char_ne_of_toNat_ne (show c.toNat ≠ 91 by omega),
    char_ne_of_toNat_ne (show c.toNat ≠ 123 by omega),
    char_ne_of_toNat_ne (show c.toNat ≠ 45 by omega),
    char_ne_of_toNat_ne (show c.toNat ≠ 46 by omega),
    char_ne_of_toNat_ne (show c.toNat ≠ 101 by omega),
    char_ne_of_toNat_ne (show c.toNat ≠ 69 by omega)⟩
  simp only [isWsChar, Bool.or_eq_false_iff, decide_eq_false_iff_not]
  omega

/-- `spanDigits` splits an all-digit block from a non-digit continuation. -/
theorem spanDigits_append (ds rest : List Char) (hds : ∀ c ∈ ds, isDigitChar c = true)
    (hrest : headDigit rest = false) : spanDigits (ds ++ rest) = (ds, rest) := by
  induction ds with
  | nil =>
    simp only [List.nil_append]
    cases rest with
    | nil => rfl
    | cons c cs =>
      rw [headDigit] at hrest
      rw [spanDigits, hrest]
      simp
  | cons c cs ih =>
    rw [List.cons_append, spanDigits, hds c (by simp)]
    simp only [if_true]
    rw [ih (fun x hx => hds x (by simp [hx]))]

/-- Structure of a printed natural number: a digit head (nonzero unless the
number is zero) and digit tail. -/
theorem natCharsAux_structure (fuel n : Nat) (h : n < fuel) :
    ∃ c ds, natCharsAux fuel n = c :: ds ∧ isDigitChar c = true ∧
      (n ≠ 0 → c ≠ '0') ∧ ∀ x ∈ ds, isDigitChar x = true := by
  induction fuel generalizing n with
  | zero => omega
  | succ fuel ih =>
    rw [natCharsAux]
    by_cases h10 : n < 10
    · rw [if_pos h10]
      refine ⟨digitChar n, [], rfl, ?_, ?_, by simp⟩
      · simp only [isDigitChar, digitChar_toNat h10, Bool.and_eq_true, decide_eq_true_eq]
        omega
      · intro hn
        exact char_ne_of_toNat_ne (by rw [digitChar_toNat h10]; show 48 + n ≠ 48; omega)
    · rw [if_neg h10]
      obtain ⟨c, ds, hc, hdig, hz, hds⟩ := ih (n / 10) (by omega)
      refine ⟨c, ds ++ [digitChar (n % 10)], by rw [hc, List.cons_append], hdig,
        fun _ => hz (by omega), ?_⟩
      intro x hx
      rcases List.mem_append.mp hx with hx | hx
      · exact hds x hx
      · simp only [List.mem_singleton] at hx
        subst hx
        simp only [isDigitChar, digitChar_toNat (Nat.mod_lt n (by omega)),
          Bool.and_eq_true, decide_eq_true_eq]
        omega

/-- Parsing the printed unsigned integer recovers it. -/
theorem parseUIntAux_natChars (n : Nat) (rest : List Char)
    (hrest : headDigit rest = false) :
    parseUIntAux (natChars n ++ rest) = some (n, rest) := by
  by_cases h0 : n = 0
  · subst h0
    rw [show natChars 0 = ['0'] from by decide, List.cons_append, List.nil_append,
      parseUIntAux, if_pos rfl]
  · obtain ⟨c, ds, hc, hdig, hz, hds⟩ := natCharsAux_structure (n + 1) n (by omega)
    have hcons : natChars n = c :: ds := hc
    rw [hcons, List.cons_append, parseUIntAux, if_neg (hz h0), if_pos hdig,
      spanDigits_append ds rest hds hrest]
    show some (digitsVal (c :: ds), rest) = some (n, rest)
    rw [show (c :: ds : List Char) = natChars n from hcons.symm, digitsVal_natChars]

/-- Parsing the printed integer recovers it. -/
theorem parseIntAux_intChars (i : Int) (rest : List Char)
    (hrest : headDigit rest = false) :
    parseIntAux (intChars i ++ rest) = some (i, rest) := by
  by_cases hneg : i < 0
  · rw [intChars, if_pos hneg, List.cons_append, parseIntAux, if_pos rfl,
      parseUIntAux_natChars _ _ hrest]
    show some (-(i.natAbs : Int), rest) = some (i, rest)
    have harith : -(i.natAbs : Int) = i := by omega
    rw [harith]
  · rw [intChars, if_neg hneg]
    obtain ⟨c, ds, hc, hdig, _, _⟩ := natCharsAux_structure (i.toNat + 1) i.toNat (by omega)
    have hcons : natChars i.toNat = c :: ds := hc
    obtain ⟨_, _, _, _, _, _, _, _, _, hminus, _, _, _⟩ := digit_head_facts hdig
    rw [hcons, List.cons_append, parseIntAux, if_neg hminus, ← List.cons_append, ← hcons,
      parseUIntAux_natChars _ _ hrest]
    show some ((i.toNat : Int), rest) = some (i, rest)
    have harith : ((i.toNat : Int)) = i := by omega
    rw [harith]

/-- A `numEnd` continuation does not start with a digit. -/
theorem headDigit_of_numEnd {rest : List Char} (h : numEnd rest = true) :
    headDigit rest = false := by
  cases rest with
  | nil => rfl
  | cons c cs =>
    rw [numEnd] at h
    rw [headDigit]
    simp only [Bool.not_eq_true', Bool.or_eq_false_iff] at h
    exact h.1.1.1

/-- Parsing the printed integer as a number token recovers it. -/
theorem parseNumFrom_intChars (i : Int) (rest : List Char) (hrest : numEnd rest = true) :
    parseNumFrom (intChars i ++ rest) = some (.num i, rest) := by
  rw [parseNumFrom, parseIntAux_intChars i rest (headDigit_of_numEnd hrest)]
  cases rest with
  | nil => rfl
  | cons c cs =>
    rw [numEnd] at hrest
    simp only [Bool.not_eq_true', Bool.or_eq_false_iff] at hrest
    show (if c = '.' ∨ c = 'e' ∨ c = 'E' then none else some (Json.num i, c :: cs)) =
      some (Json.num i, c :: cs)
    rw [if_neg]
    simp only [decide_eq_false_iff_not] at hrest
    push_neg
    exact ⟨hrest.1.1.2, hrest.1.2, hrest.2⟩

/-- `hexVal` inverts `hexChar` on hex digits. -/
theorem hexVal_hexChar : ∀ d, d < 16 → hexVal (hexChar d) = some d := by
  decide

set_option maxHeartbeats 1000000 in
/-- Escaping only lengthens a character sequence. -/
theorem le_escChars_length (cs : List Char) : cs.length ≤ (escChars cs).length := by
  induction cs with
  | nil => simp [escChars]
  | cons c cs ih =>
    rw [escChars, List.length_append, List.length_cons]
    have h1 : 1 ≤ (escChar c).length := by
      unfold escChar
      split_ifs <;> simp [hex4Chars]
    omega

set_option maxHeartbeats 1000000 in
/-- Scanning a `\uXXXX` escape outside the surrogate range. -/
theorem strStep_u (x1 x2 x3 x4 : Char) (d1 d2 d3 d4 : Nat) (rest : List Char)
    (h1 : hexVal x1 = some d1) (h2 : hexVal x2 = some d2) (h3 : hexVal x3 = some d3)
    (h4 : hexVal x4 = some d4)
    (hv : d1 * 4096 + d2 * 256 + d3 * 16 + d4 < 55296 ∨
      57344 ≤ d1 * 4096 + d2 * 256 + d3 * 16 + d4) :
    strStep ('\\' :: 'u' :: x1 :: x2 :: x3 :: x4 :: rest) =
      some (some (Char.ofNat (d1 * 4096 + d2 * 256 + d3 * 16 + d4)), rest) := by
  unfold strStep
  simp only [h1, h2, h3, h4]
  rw [if_pos hv]
  rfl

set_option maxHeartbeats 1000000 in
/-- Scanning a surrogate-pair escape. -/
theorem strStep_u_pair (x1 x2 x3 x4 y1 y2 y3 y4 : Char) (d1 d2 d3 d4 e1 e2 e3 e4 : Nat)
    (rest : List Char)
    (h1 : hexVal x1 = some d1) (h2 : hexVal x2 = some d2) (h3 : hexVal x3 = some d3)
    (h4 : hexVal x4 = some d4) (h5 : hexVal y1 = some e1) (h6 : hexVal y2 = some e2)
    (h7 : hexVal y3 = some e3) (h8 : hexVal y4 = some e4)
    (hhi : ¬(d1 * 4096 + d2 * 256 + d3 * 16 + d4 < 55296 ∨
      57344 ≤ d1 * 4096 + d2 * 256 + d3 * 16 + d4))
    (hhi2 : d1 * 4096 + d2 * 256 + d3 * 16 + d4 ≤ 56319)
    (hlo : 56320 ≤ e1 * 4096 + e2 * 256 + e3 * 16 + e4 ∧
      e1 * 4096 + e2 * 256 + e3 * 16 + e4 ≤ 57343) :
    strStep ('\\' :: 'u' :: x1 :: x2 :: x3 :: x4 :: '\\' :: 'u' ::
        y1 :: y2 :: y3 :: y4 :: rest) =
      some (some (Char.ofNat (65536 + (d1 * 4096 + d2 * 256 + d3 * 16 + d4 - 55296) * 1024 +
        (e1 * 4096 + e2 * 256 + e3 * 16 + e4 - 56320))), rest) := by
  unfold strStep
  simp only [h1, h2, h3, h4, h5, h6, h7, h8]
  rw [if_neg hhi, if_pos hhi2, if_pos hlo]
  rfl

set_option maxHeartbeats 2000000 in
/-- Scanning the escape of one character yields exactly that character. -/
theorem strStep_escChar (c : Char) (rest : List Char) :
    strStep (escChar c ++ rest) = some (some c, rest) := by
  have hub := char_toNat_lt c
  have hsur := char_not_surrogate c
  by_cases hq : c = '"'
  · subst hq
    rfl
  · by_cases hbs : c = '\\'
    · subst hbs
      rfl
    · by_cases h8 : c.toNat = 8
      · have e1 : escChar c = ['\\', 'b'] := by
          unfold escChar
          rw [if_neg hq, if_neg hbs, if_pos h8]
        rw [e1, List.cons_append, List.cons_append, List.nil_append]
        show some (some (Char.ofNat 8), rest) = some (some c, rest)
        rw [show Char.ofNat 8 = c from
          char_eq_iff_toNat.mpr (by rw [toNat_charOfNat_lt (by omega), h8])]
      · by_cases h9 : c.toNat = 9
        · have e1 : escChar c = ['\\', 't'] := by
            unfold escChar
            rw [if_neg hq, if_neg hbs, if_neg h8, if_pos h9]
          rw [e1, List.cons_append, List.cons_append, List.nil_append]
          show some (some (Char.ofNat 9), rest) = some (some c, rest)
          rw [show Char.ofNat 9 = c from
            char_eq_iff_toNat.mpr (by rw [toNat_charOfNat_lt (by omega), h9])]
        · by_cases h10 : c.toNat = 10
          · have e1 : escChar c = ['\\', 'n'] := by
              unfold escChar
              rw [if_neg hq, if_neg hbs, if_neg h8, if_neg h9, if_pos h10]
            rw [e1, List.cons_append, List.cons_append, List.nil_append]
            show some (some (Char.ofNat 10), rest) = some (some c, rest)
            rw [show Char.ofNat 10 = c from
              char_eq_iff_toNat.mpr (by rw [toNat_charOfNat_lt (by omega), h10])]
          · by_cases h12 : c.toNat = 12
            · have e1 : escChar c = ['\\', 'f'] := by
                unfold escChar
                rw [if_neg hq, if_neg hbs, if_neg h8, if_neg h9, if_neg h10, if_pos h12]
              rw [e1, List.cons_append, List.cons_append, List.nil_append]
              show some (some (Char.ofNat 12), rest) = some (some c, rest)
              rw [show Char.ofNat 12 = c from
                char_eq_iff_toNat.mpr (by rw [toNat_charOfNat_lt (by omega), h12])]
            · by_cases h13 : c.toNat = 13
              · have e1 : escChar c = ['\\', 'r'] := by
                  unfold escChar
                  rw [if_neg hq, if_neg hbs, if_neg h8, if_neg h9, if_neg h10, if_neg h12,
                    if_pos h13]
                rw [e1, List.cons_append, List.cons_append, List.nil_append]
                show some (some (Char.ofNat 13), rest) = some (some c, rest)
                rw [show Char.ofNat 13 = c from
                  char_eq_iff_toNat.mpr (by rw [toNat_charOfNat_lt (by omega), h13])]
              · by_cases hctl : c.toNat < 32
                · have e1 : escChar c ++ rest = '\\' :: 'u' ::
                      hexChar (c.toNat / 4096 % 16) :: hexChar (c.toNat / 256 % 16) ::
                      hexChar (c.toNat / 16 % 16) :: hexChar (c.toNat % 16) :: rest := by
                    unfold escChar
                    rw [if_neg hq, if_neg hbs, if_neg h8, if_neg h9, if_neg h10,
                      if_neg h12, if_neg h13, if_pos hctl]
                    simp [hex4Chars]
                  rw [e1, strStep_u _ _ _ _ _ _ _ _ rest (hexVal_hexChar _ (by omega))
                    (hexVal_hexChar _ (by omega)) (hexVal_hexChar _ (by omega))
                    (hexVal_hexChar _ (by omega)) (by omega)]
                  have harg : c.toNat / 4096 % 16 * 4096 + c.toNat / 256 % 16 * 256 +
                      c.toNat / 16 % 16 * 16 + c.toNat % 16 = c.toNat := by omega
                  rw [harg, Char.ofNat_toNat]
                · by_cases hpr : c.toNat ≤ 126
                  · have e1 : escChar c = [c] := by
                      unfold escChar
                      rw [if_neg hq, if_neg hbs, if_neg h8, if_neg h9, if_neg h10,
                        if_neg h12, if_neg h13, if_neg hctl, if_pos hpr]
                    rw [e1, List.cons_append, List.nil_append]
                    unfold strStep
                    simp only
                    rw [if_neg hq, if_neg hbs, if_neg hctl]
                  · by_cases hbmp : c.toNat < 65536
                    · have e1 : escChar c ++ rest = '\\' :: 'u' ::
                          hexChar (c.toNat / 4096 % 16) :: hexChar (c.toNat / 256 % 16) ::
                          hexChar (c.toNat / 16 % 16) :: hexChar (c.toNat % 16) :: rest := by
                        unfold escChar
                        rw [if_neg hq, if_neg hbs, if_neg h8, if_neg h9, if_neg h10,
                          if_neg h12, if_neg h13, if_neg hctl, if_neg hpr, if_pos hbmp]
                        simp [hex4Chars]
                      rw [e1, strStep_u _ _ _ _ _ _ _ _ rest (hexVal_hexChar _ (by omega))
                        (hexVal_hexChar _ (by omega)) (hexVal_hexChar _ (by omega))
                        (hexVal_hexChar _ (by omega)) (by omega)]
                      have harg : c.toNat / 4096 % 16 * 4096 + c.toNat / 256 % 16 * 256 +
                          c.toNat / 16 % 16 * 16 + c.toNat % 16 = c.toNat := by omega
                      rw [harg, Char.ofNat_toNat]
                    · have e1 : escChar c ++ rest = '\\' :: 'u' ::
                          hexChar ((55296 + (c.toNat - 65536) / 1024) / 4096 % 16) ::
                          hexChar ((55296 + (c.toNat - 65536) / 1024) / 256 % 16) ::
                          hexChar ((55296 + (c.toNat - 65536) / 1024) / 16 % 16) ::
                          hexChar ((55296 + (c.toNat - 65536) / 1024) % 16) :: '\\' :: 'u' ::
                          hexChar ((56320 + (c.toNat - 65536) % 1024) / 4096 % 16) ::
                          hexChar ((56320 + (c.toNat - 65536) % 1024) / 256 % 16) ::
                          hexChar ((56320 + (c.toNat - 65536) % 1024) / 16 % 16) ::
                          hexChar ((56320 + (c.toNat - 65536) % 1024) % 16) :: rest := by
                        unfold escChar
                        rw [if_neg hq, if_neg hbs, if_neg h8, if_neg h9, if_neg h10,
                          if_neg h12, if_neg h13, if_neg hctl, if_neg hpr, if_neg hbmp]
                        simp [hex4Chars]
                      rw [e1, strStep_u_pair _ _ _ _ _ _ _ _ _ _ _ _ _ _ _ _ rest
                        (hexVal_hexChar _ (by omega)) (hexVal_hexChar _ (by omega))
                        (hexVal_hexChar _ (by omega)) (hexVal_hexChar _ (by omega))
                        (hexVal_hexChar _ (by omega)) (hexVal_hexChar _ (by omega))
                        (hexVal_hexChar _ (by omega)) (hexVal_hexChar _ (by omega))
                        (by omega) (by omega) (by constructor <;> omega)]
                      have harg : 65536 +
                          ((55296 + (c.toNat - 65536) / 1024) / 4096 % 16 * 4096 +
                            (55296 + (c.toNat - 65536) / 1024) / 256 % 16 * 256 +
                            (55296 + (c.toNat - 65536) / 1024) / 16 % 16 * 16 +
                            (55296 + (c.toNat - 65536) / 1024) % 16 - 55296) * 1024 +
                          ((56320 + (c.toNat - 65536) % 1024) / 4096 % 16 * 4096 +
                            (56320 + (c.toNat - 65536) % 1024) / 256 % 16 * 256 +
                            (56320 + (c.toNat - 65536) % 1024) / 16 % 16 * 16 +
                            (56320 + (c.toNat - 65536) % 1024) % 16 - 56320) = c.toNat := by
                        omega
                      rw [harg, Char.ofNat_toNat]

/-- Scanning the escaped body of a string recovers its characters. -/
theorem parseStrAux_escChars : ∀ (cs : List Char) (fuel : Nat) (rest : List Char),
    cs.length < fuel →
    parseStrAux fuel (escChars cs ++ ('"' :: rest)) = some (cs, rest)
  | [], fuel, rest, h => by
    rcases fuel with _ | f
    · omega
    · rw [show escChars [] = [] from rfl, List.nil_append, parseStrAux,
        show strStep ('"' :: rest) = some (none, rest) from rfl]
  | c :: cs, fuel, rest, h => by
    rcases fuel with _ | f
    · omega
    · rw [show escChars (c :: cs) = escChar c ++ escChars cs from rfl, List.append_assoc,
        parseStrAux, strStep_escChar]
      simp only
      rw [parseStrAux_escChars cs f rest (by simp at h; omega), Option.map_some']

/-- `parseStr` recovers the escaped body of a string. -/
theorem parseStr_escChars (cs rest : List Char) :
    parseStr (escChars cs ++ ('"' :: rest)) = some (cs, rest) := by
  have hlen := le_escChars_length cs
  refine parseStrAux_escChars cs _ rest ?_
  rw [List.length_append]
  simp only [List.length_cons]
  omega

/-- Setting a fresh key appends the binding. -/
theorem objSet_fresh : ∀ (o : JsonObj) (k : String) (v : Json),
    objHasKey o k = false → objSet o k v = objAppend o (.cons k v .nil)
  | .nil, _, _, _ => rfl
  | .cons k' v' tl, k, v, h => by
    rw [objHasKey] at h
    simp only [Bool.or_eq_false_iff, decide_eq_false_iff_not] at h
    rw [objSet, if_neg h.1, objAppend, objSet_fresh tl k v h.2]

/-- Keys present after an insertion. -/
theorem objHasKey_objSet : ∀ (o : JsonObj) (k : String) (v : Json) (k' : String),
    objHasKey (objSet o k v) k' = (objHasKey o k' || k = k')
  | .nil, k, v, k' => by
    rw [objSet, objHasKey, objHasKey, objHasKey]
    simp
  | .cons k0 v0 tl, k, v, k' => by
    by_cases he : k0 = k
    · rw [objSet, if_pos he, objHasKey, objHasKey]
      subst he
      by_cases he' : k0 = k'
      · simp [he']
      · simp [he']
    · rw [objSet, if_neg he, objHasKey, objHasKey, objHasKey_objSet tl k v k']
      by_cases he' : k0 = k' <;> simp [he']

/-- Appending the empty binding sequence. -/
theorem objAppend_nil : ∀ o : JsonObj, objAppend o .nil = o
  | .nil => rfl
  | .cons k v tl => by rw [objAppend, objAppend_nil tl]

/-- Associativity of binding concatenation. -/
theorem objAppend_assoc : ∀ a b c : JsonObj,
    objAppend (objAppend a b) c = objAppend a (objAppend b c)
  | .nil, _, _ => rfl
  | .cons k v tl, b, c => by
    rw [objAppend, objAppend, objAppend, objAppend_assoc tl b c]

/-- Folding distinct-key pairs into a dict appends them unchanged. -/
theorem objFromPairsAux_nodup : ∀ (raw acc : JsonObj), objKeysNodup raw = true →
    (∀ k, objHasKey raw k = true → objHasKey acc k = false) →
    objFromPairsAux acc raw = objAppend acc raw
  | .nil, acc, _, _ => by rw [objFromPairsAux, objAppend_nil]
  | .cons k v tl, acc, hnd, hdisj => by
    rw [objKeysNodup] at hnd
    simp only [Bool.and_eq_true, Bool.not_eq_true'] at hnd
    have hfresh : objHasKey acc k = false := by
      refine hdisj k ?_
      rw [objHasKey]
      simp
    have hdisj2 : ∀ k', objHasKey tl k' = true → objHasKey (objSet acc k v) k' = false := by
      intro k' hk'
      rw [objHasKey_objSet]
      have h1 : objHasKey acc k' = false := by
        refine hdisj k' ?_
        rw [objHasKey, hk']
        simp
      rw [h1]
      simp only [Bool.false_or, decide_eq_false_iff_not]
      intro he
      subst he
      rw [hnd.1] at hk'
      exact Bool.false_ne_true hk'
    rw [objFromPairsAux, objFromPairsAux_nodup tl _ hnd.2 hdisj2,
      objSet_fresh acc k v hfresh, objAppend_assoc]
    rfl
  
/-- Building a dict from distinct-key members is the identity. -/
theorem objFromPairs_nodup (o : JsonObj) (h : objKeysNodup o = true) :
    objFromPairs o = o := by
  rw [objFromPairs, objFromPairsAux_nodup o .nil h (fun k _ => rfl)]
  rfl

/-- The first character of a dumped value is not whitespace and not a
closing bracket or brace. -/
theorem dumpVal_head (j : Json) : ∃ c cs', dumpVal j = c :: cs' ∧ isWsChar c = false ∧
    c ≠ ']' ∧ c ≠ '\x7d' := by
  cases j with
  | num n =>
    rw [show dumpVal (.num n) = intChars n from rfl]
    by_cases hneg : n < 0
    · rw [intChars, if_pos hneg]
      refine ⟨'-', _, rfl, ?_, ?_, ?_⟩ <;> decide
    · rw [intChars, if_neg hneg]
      obtain ⟨c, ds, hc, hdig, _, _⟩ :=
        natCharsAux_structure (n.toNat + 1) n.toNat (by omega)
      obtain ⟨hws, hbr, hbc, _⟩ := digit_head_facts hdig
      exact ⟨c, ds, hc, hws, hbr, hbc⟩
  | null => refine ⟨'n', _, rfl, ?_, ?_, ?_⟩ <;> decide
  | bool b =>
    cases b with
    | true => refine ⟨'t', _, rfl, ?_, ?_, ?_⟩ <;> decide
    | false => refine ⟨'f', _, rfl, ?_, ?_, ?_⟩ <;> decide
  | str s => refine ⟨'"', _, rfl, ?_, ?_, ?_⟩ <;> decide
  | arr l =>
    cases l with
    | nil => refine ⟨'[', _, rfl, ?_, ?_, ?_⟩ <;> decide
    | cons h t => refine ⟨'[', _, rfl, ?_, ?_, ?_⟩ <;> decide
  | obj o =>
    cases o with
    | nil => refine ⟨'\x7b', _, rfl, ?_, ?_, ?_⟩ <;> decide
    | cons k v t => refine ⟨'\x7b', _, rfl, ?_, ?_, ?_⟩ <;> decide

/-- `parseVal` ignores a leading whitespace character. -/
theorem parseVal_ws_cons : ∀ (fuel : Nat) (c : Char) (cs : List Char),
    isWsChar c = true → parseVal fuel (c :: cs) = parseVal fuel cs
  | 0, _, _, _ => rfl
  | fuel + 1, c, cs, h => by
    rw [parseVal, parseVal, skipWs_ws_cons _ h]

/-- `parseElems` ignores a leading whitespace character. -/
theorem parseElems_ws_cons : ∀ (fuel : Nat) (c : Char) (cs : List Char),
    isWsChar c = true → parseElems fuel (c :: cs) = parseElems fuel cs
  | 0, _, _, _ => rfl
  | fuel + 1, c, cs, h => by
    rw [parseElems, parseElems, parseVal_ws_cons _ _ _ h]

/-- `parseMembers` ignores a leading whitespace character. -/
theorem parseMembers_ws_cons : ∀ (fuel : Nat) (c : Char) (cs : List Char),
    isWsChar c = true → parseMembers fuel (c :: cs) = parseMembers fuel cs
  | 0, _, _, _ => rfl
  | fuel + 1, c, cs, h => by
    rw [parseMembers, parseMembers, skipWs_ws_cons _ h]

/-- Every value needs at least one unit of fuel. -/
theorem one_le_needVal (j : Json) : 1 ≤ needVal j := by
  cases j with
  | null => exact Nat.le_refl 1
  | bool b => exact Nat.le_refl 1
  | num n => exact Nat.le_refl 1
  | str s => exact Nat.le_refl 1
  | arr l =>
    cases l with
    | nil => exact Nat.le_refl 1
    | cons h t => rw [needVal]; omega
  | obj o =>
    cases o with
    | nil => exact Nat.le_refl 1
    | cons k v t => rw [needVal]; omega

/-- Printed integers are nonempty. -/
theorem one_le_intChars_length (n : Int) : 1 ≤ (intChars n).length := by
  rw [intChars]
  by_cases hneg : n < 0
  · rw [if_pos hneg]
    simp
  · rw [if_neg hneg]
    rcases he : natChars n.toNat with _ | ⟨c, cs⟩
    · exact absurd he (natCharsAux_ne_nil _ _ (by omega))
    · simp

mutual

/-- The fuel needed for a value is covered by twice its printed length. -/
theorem needVal_le : ∀ j : Json, needVal j ≤ 2 * (dumpVal j).length
  | .null => by rw [needVal]; simp [dumpVal]
  | .bool true => by rw [needVal]; simp [dumpVal]
  | .bool false => by rw [needVal]; simp [dumpVal]
  | .num n => by
    rw [needVal, show dumpVal (.num n) = intChars n from rfl]
    have := one_le_intChars_length n
    omega
  | .str s => by
    rw [needVal, show dumpVal (.str s) = '"' :: escChars s.data ++ ['"'] from rfl]
    simp
    omega
  | .arr .nil => by rw [needVal]; simp [dumpVal]
  | .arr (.cons h t) => by
    rw [needVal, needElems,
      show dumpVal (.arr (.cons h t)) = '[' :: (dumpVal h ++ dumpListRest t) ++ [']'] from rfl]
    have ih1 := needVal_le h
    have ih2 := needElems_le t
    simp only [List.length_cons, List.length_append]
    omega
  | .obj .nil => by rw [needVal]; simp [dumpVal]
  | .obj (.cons k v t) => by
    rw [needVal, needMembers, show dumpVal (.obj (.cons k v t)) =
      '\x7b' :: (('"' :: escChars k.data ++ '"' :: ':' :: ' ' :: dumpVal v) ++ dumpObjRest t) ++
        ['\x7d'] from rfl]
    have ih1 := needVal_le v
    have ih2 := needMembers_le t
    simp only [List.length_cons, List.length_append]
    omega

/-- The fuel needed for elements is covered by twice their printed length
plus two. -/
theorem needElems_le : ∀ l : JsonList, needElems l ≤ 2 * (dumpListRest l).length + 2
  | .nil => by rw [needElems]; omega
  | .cons h t => by
    rw [needElems,
      show dumpListRest (.cons h t) = ',' :: ' ' :: (dumpVal h ++ dumpListRest t) from rfl]
    have ih1 := needVal_le h
    have ih2 := needElems_le t
    simp only [List.length_cons, List.length_append]
    omega

/-- The fuel needed for members is covered by twice their printed length
plus two. -/
theorem needMembers_le : ∀ o : JsonObj, needMembers o ≤ 2 * (dumpObjRest o).length + 2
  | .nil => by rw [needMembers]; omega
  | .cons k v t => by
    rw [needMembers, show dumpObjRest (.cons k v t) = ',' :: ' ' ::
      (('"' :: escChars k.data ++ '"' :: ':' :: ' ' :: dumpVal v) ++ dumpObjRest t) from rfl]
    have ih1 := needVal_le v
    have ih2 := needMembers_le t
    simp only [List.length_cons, List.length_append]
    omega

end

/-- Shape of the scanner on a non-keyword, non-punctuation head: a number
token is attempted. -/
theorem parseVal_other (fuel : Nat) (c : Char) (cs : List Char) (hws : isWsChar c = false)
    (hn : c ≠ 'n') (ht : c ≠ 't') (hf : c ≠ 'f') (hq : c ≠ '"') (hlb : c ≠ '[')
    (hlc : c ≠ '\x7b') :
    parseVal (fuel + 1) (c :: cs) = parseNumFrom (c :: cs) := by
  rw [parseVal, skipWs_cons _ hws]
  simp only
  rw [if_neg hn, if_neg ht, if_neg hf, if_neg hq, if_neg hlb, if_neg hlc]

/-- Scanner shape at `[`. -/
theorem parseVal_arr (fuel : Nat) (cs : List Char) :
    parseVal (fuel + 1) ('[' :: cs) =
      if headChar (skipWs cs) = some ']' then some (.arr .nil, (skipWs cs).tail)
      else (parseElems fuel cs).map (fun p => (.arr p.1, p.2)) := rfl

/-- Scanner shape at an opening brace. -/
theorem parseVal_obj (fuel : Nat) (cs : List Char) :
    parseVal (fuel + 1) ('\x7b' :: cs) =
      if headChar (skipWs cs) = some '\x7d' then some (.obj .nil, (skipWs cs).tail)
      else (parseMembers fuel cs).map (fun p => (.obj (objFromPairs p.1), p.2)) := rfl

/-- Scanner shape at a quote. -/
theorem parseVal_quote (fuel : Nat) (cs : List Char) :
    parseVal (fuel + 1) ('"' :: cs) =
      (parseStr cs).map (fun p => (.str (String.mk p.1), p.2)) := rfl

mutual

/-- Scanning the dump of a value (with any `numEnd`-safe continuation)
recovers the value. -/
theorem parseVal_dump : ∀ (j : Json) (fuel : Nat) (rest : List Char),
    jsonWf j = true → needVal j ≤ fuel → numEnd rest = true →
    parseVal fuel (dumpVal j ++ rest) = some (j, rest)
  | j, 0, _, _, hfuel, _ => by
    have := one_le_needVal j
    omega
  | .null, fuel + 1, rest, _, _, _ => rfl
  | .bool true, fuel + 1, rest, _, _, _ => rfl
  | .bool false, fuel + 1, rest, _, _, _ => rfl
  | .num n, fuel + 1, rest, _, _, hrest => by
    by_cases hneg : n < 0
    · have e1 : dumpVal (.num n) ++ rest = '-' :: (natChars n.natAbs ++ rest) := by
        rw [show dumpVal (.num n) = intChars n from rfl, intChars, if_pos hneg,
          List.cons_append]
      rw [e1, parseVal_other fuel _ _ (by decide) (by decide) (by decide) (by decide)
        (by decide) (by decide) (by decide)]
      rw [show ('-' :: (natChars n.natAbs ++ rest) : List Char) = intChars n ++ rest from by
        rw [intChars, if_pos hneg, List.cons_append]]
      exact parseNumFrom_intChars n rest hrest
    · obtain ⟨c, ds, hc, hdig, _, _⟩ := natCharsAux_structure (n.toNat + 1) n.toNat (by omega)
      obtain ⟨hws, _, _, hn, ht, hf, hq, hlb, hlc, _, _, _, _⟩ := digit_head_facts hdig
      have e1 : dumpVal (.num n) ++ rest = c :: (ds ++ rest) := by
        rw [show dumpVal (.num n) = intChars n from rfl, intChars, if_neg hneg,
          show natChars n.toNat = c :: ds from hc, List.cons_append]
      rw [e1, parseVal_other fuel _ _ hws hn ht hf hq hlb hlc]
      rw [show (c :: (ds ++ rest) : List Char) = intChars n ++ rest from by
        rw [intChars, if_neg hneg, show natChars n.toNat = c :: ds from hc,
          List.cons_append]]
      exact parseNumFrom_intChars n rest hrest
  | .str s, fuel + 1, rest, _, _, _ => by
    have e1 : dumpVal (.str s) ++ rest = '"' :: (escChars s.data ++ ('"' :: rest)) := by
      rw [show dumpVal (.str s) = '"' :: escChars s.data ++ ['"'] from rfl]
      simp [List.append_assoc]
    rw [e1, parseVal_quote, parseStr_escChars]
    rfl
  | .arr .nil, fuel + 1, rest, _, _, _ => rfl
  | .arr (.cons h t), fuel + 1, rest, hwf, hfuel, _ => by
    rw [jsonWf, jsonListWf, Bool.and_eq_true] at hwf
    rw [needVal] at hfuel
    have e1 : dumpVal (.arr (.cons h t)) ++ rest =
        '[' :: (dumpVal h ++ (dumpListRest t ++ (']' :: rest))) := by
      rw [show dumpVal (.arr (.cons h t)) =
        '[' :: (dumpVal h ++ dumpListRest t) ++ [']'] from rfl]
      simp [List.append_assoc]
    rw [e1, parseVal_arr]
    obtain ⟨c0, cs0, hc0, hws0, hbr0, _⟩ := dumpVal_head h
    rw [hc0, List.cons_append, skipWs_cons _ hws0,
      if_neg (by simp only [headChar, Option.some.injEq]; exact hbr0),
      ← List.cons_append, ← hc0,
      parseElems_dump h t fuel rest hwf.1 hwf.2 (by omega)]
    rfl
  | .obj .nil, fuel + 1, rest, _, _, _ => rfl
  | .obj (.cons k v t), fuel + 1, rest, hwf, hfuel, _ => by
    rw [jsonWf, Bool.and_eq_true] at hwf
    obtain ⟨hnd, hovf⟩ := hwf
    rw [jsonObjWf, Bool.and_eq_true] at hovf
    rw [needVal] at hfuel
    have e1 : dumpVal (.obj (.cons k v t)) ++ rest =
        '\x7b' :: (dumpEntry k v ++ (dumpObjRest t ++ ('\x7d' :: rest))) := by
      rw [show dumpVal (.obj (.cons k v t)) = '\x7b' ::
        (('"' :: escChars k.data ++ '"' :: ':' :: ' ' :: dumpVal v) ++ dumpObjRest t) ++
        ['\x7d'] from rfl,
        show dumpEntry k v =
          '"' :: escChars k.data ++ '"' :: ':' :: ' ' :: dumpVal v from rfl]
      simp [List.append_assoc]
    rw [e1, parseVal_obj,
      if_neg (fun (hx : headChar (skipWs (dumpEntry k v ++
            (dumpObjRest t ++ ('\x7d' :: rest)))) = some '\x7d') =>
        absurd (show (some '"' : Option Char) = some '\x7d' from hx) (by decide)),
      parseMembers_dump k v t fuel rest hovf.1 hovf.2 (by omega)]
    simp only [Option.map_some']
    rw [objFromPairs_nodup _ hnd]

/-- Scanning dumped elements up to the closing bracket recovers them. -/
theorem parseElems_dump : ∀ (h : Json) (t : JsonList) (fuel : Nat) (rest : List Char),
    jsonWf h = true → jsonListWf t = true → needElems (.cons h t) ≤ fuel →
    parseElems fuel (dumpVal h ++ (dumpListRest t ++ (']' :: rest))) = some (.cons h t, rest)
  | h, _, 0, _, _, _, hfuel => by
    rw [needElems] at hfuel
    have := one_le_needVal h
    omega
  | h, t, fuel + 1, rest, hwfh, hwft, hfuel => by
    rw [needElems] at hfuel
    rw [parseElems,
      parseVal_dump h fuel _ hwfh (by omega) (by cases t <;> rfl)]
    simp only
    cases t with
    | nil => rfl
    | cons h2 t2 =>
      rw [jsonListWf, Bool.and_eq_true] at hwft
      show (parseElems fuel
          (' ' :: ((dumpVal h2 ++ dumpListRest t2) ++ (']' :: rest)))).map
          (fun p => (JsonList.cons h p.1, p.2)) =
        some (JsonList.cons h (JsonList.cons h2 t2), rest)
      rw [parseElems_ws_cons fuel _ _ (by decide), List.append_assoc,
        parseElems_dump h2 t2 fuel rest hwft.1 hwft.2 (by rw [needElems] at hfuel ⊢; omega)]
      rfl

/-- Scanning dumped members up to the closing brace recovers them. -/
theorem parseMembers_dump : ∀ (k : String) (v : Json) (t : JsonObj) (fuel : Nat)
    (rest : List Char), jsonWf v = true → jsonObjWf t = true →
    needMembers (.cons k v t) ≤ fuel →
    parseMembers fuel (dumpEntry k v ++ (dumpObjRest t ++ ('\x7d' :: rest))) =
      some (.cons k v t, rest)
  | _, v, _, 0, _, _, _, hfuel => by
    rw [needMembers] at hfuel
    have := one_le_needVal v
    omega
  | k, v, t, fuel + 1, rest, hwfv, hwft, hfuel => by
    rw [needMembers] at hfuel
    have e1 : dumpEntry k v ++ (dumpObjRest t ++ ('\x7d' :: rest)) =
        '"' :: (escChars k.data ++
          ('"' :: (':' :: ' ' :: (dumpVal v ++ (dumpObjRest t ++ ('\x7d' :: rest)))))) := by
      rw [show dumpEntry k v =
        '"' :: escChars k.data ++ '"' :: ':' :: ' ' :: dumpVal v from rfl]
      simp [List.append_assoc]
    rw [e1, parseMembers, skipWs_cons _ (by decide)]
    simp only
    rw [if_pos (trivial : True)]
    rw [parseStr_escChars]
    simp only
    rw [skipWs_cons _ (by decide)]
    simp only
    rw [if_pos (trivial : True)]
    rw [parseVal_ws_cons fuel _ _ (by decide),
      parseVal_dump v fuel _ hwfv (by omega) (by cases t <;> rfl)]
    simp only
    cases t with
    | nil => rfl
    | cons k2 v2 t2 =>
      rw [jsonObjWf, Bool.and_eq_true] at hwft
      show (parseMembers fuel
          (' ' :: ((('"' :: escChars k2.data ++ '"' :: ':' :: ' ' :: dumpVal v2) ++
            dumpObjRest t2) ++ ('\x7d' :: rest)))).map
          (fun p => (JsonObj.cons (String.mk k.data) v p.1, p.2)) =
        some (JsonObj.cons k v (JsonObj.cons k2 v2 t2), rest)
      rw [parseMembers_ws_cons fuel _ _ (by decide), List.append_assoc,
        show ('"' :: escChars k2.data ++ '"' :: ':' :: ' ' :: dumpVal v2 : List Char) =
          dumpEntry k2 v2 from rfl,
        parseMembers_dump k2 v2 t2 fuel rest hwft.1 hwft.2
          (by rw [needMembers] at hfuel ⊢; omega)]
      rfl

end

/-- `json.loads(json.dumps(j))` recovers any duplicate-key-free value. -/
theorem jsonLoads_jsonDumps (j : Json) (hwf : jsonWf j = true) :
    jsonLoads (jsonDumps j) = some j := by
  rw [jsonLoads]
  have hfuel : needVal j ≤ 2 * (jsonDumps j).data.length + 2 := by
    have := needVal_le j
    rw [show (jsonDumps j).data = dumpVal j from rfl]
    omega
  rw [show (jsonDumps j).data = dumpVal j from rfl,
    show (dumpVal j : List Char) = dumpVal j ++ [] from (List.append_nil _).symm] at hfuel ⊢
  rw [parseVal_dump j _ [] hwf (by simpa using hfuel) rfl]
  rfl

/-! ## Factory and renderer claims -/

/-- C3: for every natural number `n`, `make_scene n` returns a scene with
`id = n + 1`, all five text fields empty, and exactly the four shots of
the fixed cycle: ids 1-4, types Wide / Medium Shot / Close‑Up / absent,
`alt_type` defaulting to Wide exactly for the absent type, empty
descriptions, no files; the effective types (the `type if type else
alt_type` selector the renderer uses) are Wide, Medium Shot, Close‑Up,
Wide.  `make_scene` is a pure function of its argument. -/
theorem c3_make_scene (α : Type) (n : Nat) :
    make_scene α (n : Int) =
      { id := (n : Int) + 1, title := "", hook := "", problem := "",
        conflict := "", resolution := "",
        shots := [
          { id := 1, type := some "Wide", alt_type := none,
            description := "", file := none },
          { id := 2, type := some "Medium Shot", alt_type := none,
            description := "", file := none },
          { id := 3, type := some "Close‑Up", alt_type := none,
            description := "", file := none },
          { id := 4, type := none, alt_type := some "Wide",
            description := "", file := none } ] } ∧
    (make_scene α (n : Int)).shots.map
        (fun sh => if pyTruthy sh.type then sh.type else sh.alt_type) =
      [some "Wide", some "Medium Shot", some "Close‑Up", some "Wide"] :=
  ⟨rfl, rfl⟩

/-- The ten lines one scene with four shots contributes. -/
theorem scene_lines_length (α : Type) (sc : Scene α) (h : sc.shots.length = 4) :
    (scene_lines α sc).length = 10 := by
  show (scene_lines α sc).length = 10
  simp [scene_lines, List.length_append, h]

/-- C4: for every project whose scenes each have exactly 4 shots,
`build_lines` returns exactly 10 lines per scene. -/
theorem c4_build_lines_length (α : Type) (P : List (Scene α))
    (h : ∀ sc ∈ P, sc.shots.length = 4) :
    (build_lines α P).length = 10 * P.length := by
  induction P with
  | nil => rfl
  | cons sc rest ih =>
    show (scene_lines α sc ++ build_lines α rest).length = 10 * (sc :: rest).length
    rw [List.length_append, ih (fun x hx => h x (List.mem_cons_of_mem _ hx)),
      scene_lines_length α sc (h sc (List.mem_cons_self _ _)), List.length_cons]
    ring

/-- Witness for C4 at a concrete one-scene project. -/
theorem c4_build_lines_length_witness :
    (∀ sc ∈ [make_scene Unit 0], sc.shots.length = 4) ∧
    (build_lines Unit [make_scene Unit 0]).length = 10 * [make_scene Unit 0].length :=
  ⟨by decide, c4_build_lines_length Unit [make_scene Unit 0] (by decide)⟩

/-- C5: the project holding exactly `make_scene 0` with title `"Intro"`
renders to precisely the ten lines of the spec's scenario, in order
(the shot descriptions are empty, so each shot line is exactly its
prefix; `–` is U+2013 and the `Close‑Up` hyphen is U+2011). -/
theorem c5_intro_scenario :
    build_lines Unit [{ make_scene Unit 0 with title := "Intro" }] =
      ["Scene 1: Intro",
       "  Hook: ",
       "  Problem: ",
       "  Conflict: ",
       "  Resolution: ",
       "    Shot 1 (Wide) – ",
       "    Shot 2 (Medium Shot) – ",
       "    Shot 3 (Close‑Up) – ",
       "    Shot 4 (Wide) – ",
       ""] := by
  decide

/-- C6: on an empty project `build_lines` yields no lines and the export
routine fails: `max(font.getlength(l) for l in lines)` raises
`ValueError` on the empty sequence (modelled by `listMax [] = none`), so
`scenes_to_jpeg` raises instead of completing. -/
theorem c6_empty_export_fails (α : Type) (font : FontModel) :
    build_lines α [] = [] ∧ scenes_to_jpeg α font [] = none :=
  ⟨rfl, rfl⟩

/-- The drawing loop draws exactly the given lines, in order. -/
theorem draw_loop_texts (font : FontModel) :
    ∀ (y : Nat) (ls : List String),
      (draw_loop font y ls).map (fun op => op.text) = ls
  | _, [] => rfl
  | y, l :: ls => by
    show l :: (draw_loop font (y + line_height font) ls).map (fun op => op.text) = l :: ls
    rw [draw_loop_texts font (y + line_height font) ls]

/-- Every drawn line is black at x = 10. -/
theorem draw_loop_black (font : FontModel) :
    ∀ (y : Nat) (ls : List String),
      ∀ op ∈ draw_loop font y ls, op.fill = "black" ∧ op.x = 10
  | _, [], _, h => absurd h (List.not_mem_nil _)
  | y, l :: ls, op, h => by
    rcases List.mem_cons.mp h with h1 | h2
    · subst h1; exact ⟨rfl, rfl⟩
    · exact draw_loop_black font (y + line_height font) ls op h2

/-- The i-th drawn line sits at `y₀ + i` line heights: each successive
line advances vertically by exactly one line height. -/
theorem draw_loop_ys (font : FontModel) :
    ∀ (y : Nat) (ls : List String),
      (draw_loop font y ls).map (fun op => op.y) =
        (List.range ls.length).map (fun i => y + line_height font * i)
  | _, [] => rfl
  | y, l :: ls => by
    show y :: (draw_loop font (y + line_height font) ls).map (fun op => op.y) =
      (List.range (ls.length + 1)).map (fun i => y + line_height font * i)
    rw [draw_loop_ys font (y + line_height font) ls, List.range_succ_eq_map,
      List.map_cons, List.map_map]
    refine congrArg₂ _ (by ring_nf) (List.map_congr_left fun i _ => ?_)
    show y + line_height font + line_height font * i = y + line_height font * (i + 1)
    ring

/-- C9: for every non-empty line list, the renderer produces a canvas as
wide as the widest line's rendered width plus a 20-unit margin and as
tall as line-height × line-count plus a 20-unit margin, where the line
height is the font's `Hg` extent plus 4; the background is white, every
line is drawn in black at x = 10, the lines are drawn in order, and each
successive line advances by exactly one line height from y = 10. -/
theorem c9_raster_geometry (font : FontModel) (l : String) (ls : List String) :
    ∃ spec, render_raster font (l :: ls) = some spec ∧
      spec.width = (ls.map font.getlength).foldl max (font.getlength l) + 20 ∧
      (∀ s ∈ l :: ls, font.getlength s ≤ spec.width) ∧
      spec.height = line_height font * (l :: ls).length + 20 ∧
      line_height font = font.hgExtent + 4 ∧
      spec.background = "white" ∧
      (∀ op ∈ spec.ops, op.fill = "black" ∧ op.x = 10) ∧
      spec.ops.map (fun op => op.text) = l :: ls ∧
      spec.ops.map (fun op => op.y) =
        (List.range (l :: ls).length).map (fun i => 10 + line_height font * i) := by
  refine ⟨_, rfl, rfl, ?_, rfl, rfl, rfl, draw_loop_black font 10 (l :: ls),
    draw_loop_texts font 10 (l :: ls), draw_loop_ys font 10 (l :: ls)⟩
  intro s hs
  have hfold : ∀ (xs : List Nat) (a : Nat), a ≤ xs.foldl max a := by
    intro xs
    induction xs with
    | nil => intro a; exact Nat.le_refl a
    | cons x xs ih =>
      intro a
      exact le_trans (Nat.le_max_left a x) (ih (max a x))
  have hfold2 : ∀ (xs : List Nat) (a b : Nat), b ∈ xs → b ≤ xs.foldl max a := by
    intro xs
    induction xs with
    | nil => intro a b hb; exact absurd hb (List.not_mem_nil _)
    | cons x xs ih =>
      intro a b hb
      rcases List.mem_cons.mp hb with h1 | h2
      · subst h1; exact le_trans (Nat.le_max_right a b) (hfold xs (max a b))
      · exact ih (max a x) b h2
  rcases List.mem_cons.mp hs with h1 | h2
  · subst h1; exact le_trans (hfold (ls.map font.getlength) _) (Nat.le_add_right _ 20)
  · exact le_trans (hfold2 (ls.map font.getlength) _ _ (List.mem_map_of_mem _ h2))
      (Nat.le_add_right _ 20)

/-- `build_lines` never reads the `file` fields. -/
theorem build_lines_eraseFiles (α : Type) :
    ∀ P : List (Scene α), build_lines α (eraseFiles α P) = build_lines α P
  | [] => rfl
  | sc :: rest => by
    show scene_lines α { sc with shots := sc.shots.map _ } ++
        build_lines α (eraseFiles α rest) =
      scene_lines α sc ++ build_lines α rest
    rw [build_lines_eraseFiles α rest]
    refine congrArg₂ _ ?_ rfl
    show scene_lines α { sc with shots := sc.shots.map _ } = scene_lines α sc
    unfold scene_lines
    rw [List.map_map]
    rfl

/-- `strip_files`'s serialized form never reads the `file` fields. -/
theorem sceneToJsonStripped_eraseFiles (α : Type) (sc : Scene α) :
    sceneToJsonStripped α
        { sc with shots := sc.shots.map (fun sh => { sh with file := (none : Option α) }) } =
      sceneToJsonStripped α sc := by
  unfold sceneToJsonStripped
  rw [List.map_map]
  rfl

/-- `encode_scenes` never reads the `file` fields. -/
theorem encode_scenes_eraseFiles (α : Type) (P : List (Scene α)) :
    encode_scenes α (eraseFiles α P) = encode_scenes α P := by
  unfold encode_scenes eraseFiles
  rw [List.map_map]
  refine congrArg _ (congrArg _ (congrArg _ (congrArg _ (congrArg _ (congrArg _ ?_)))))
  induction P with
  | nil => rfl
  | cons sc rest ih =>
    show sceneToJsonStripped α _ :: List.map _ rest = sceneToJsonStripped α sc :: _
    rw [ih]
    refine congrArg₂ _ ?_ rfl
    exact sceneToJsonStripped_eraseFiles α sc

/-- C10: export and transport never depend on the transient uploads —
two projects that agree everywhere except in their shots' `file` fields
produce the same exported lines and the same persisted token. -/
theorem c10_file_noninterference (α : Type) (P Q : List (Scene α))
    (h : eraseFiles α P = eraseFiles α Q) :
    build_lines α P = build_lines α Q ∧ encode_scenes α P = encode_scenes α Q := by
  constructor
  · rw [← build_lines_eraseFiles α P, h, build_lines_eraseFiles]
  · rw [← encode_scenes_eraseFiles α P, h, encode_scenes_eraseFiles]

/-- Witness for C10: two one-scene projects differing only in an uploaded
file handle. -/
theorem c10_file_noninterference_witness :
    (eraseFiles Bool [{ make_scene Bool 0 with
        shots := [{ id := 1, type := some "Wide", alt_type := none,
                    description := "", file := some true }] }] =
      eraseFiles Bool [{ make_scene Bool 0 with
        shots := [{ id := 1, type := some "Wide", alt_type := none,
                    description := "", file := none }] }]) ∧
    (build_lines Bool [{ make_scene Bool 0 with
        shots := [{ id := 1, type := some "Wide", alt_type := none,
                    description := "", file := some true }] }] =
      build_lines Bool [{ make_scene Bool 0 with
        shots := [{ id := 1, type := some "Wide", alt_type := none,
                    description := "", file := none }] }] ∧
     encode_scenes Bool [{ make_scene Bool 0 with
        shots := [{ id := 1, type := some "Wide", alt_type := none,
                    description := "", file := some true }] }] =
      encode_scenes Bool [{ make_scene Bool 0 with
        shots := [{ id := 1, type := some "Wide", alt_type := none,
                    description := "", file := none }] }]) :=
  ⟨by decide, c10_file_noninterference Bool _ _ (by decide)⟩

/-! ## The codec round-trip on the application's own output -/

/-- A stripped shot object is well-formed (distinct keys throughout). -/
theorem shotToJsonStripped_wf (α : Type) (sh : Shot α) :
    jsonWf (shotToJsonStripped α sh) = true := by
  obtain ⟨i, t, a, d, f⟩ := sh
  cases t <;> cases a <;> rfl

/-- The stripped shots of a scene are well-formed. -/
theorem shotsStripped_wf (α : Type) :
    ∀ shots : List (Shot α),
      jsonListWf (jsonListOfList (shots.map (shotToJsonStripped α))) = true
  | [] => rfl
  | sh :: rest => by
    show (jsonWf (shotToJsonStripped α sh) &&
      jsonListWf (jsonListOfList (rest.map (shotToJsonStripped α)))) = true
    rw [shotToJsonStripped_wf, shotsStripped_wf α rest]
    rfl

/-- A stripped scene object is well-formed. -/
theorem sceneToJsonStripped_wf (α : Type) (sc : Scene α) :
    jsonWf (sceneToJsonStripped α sc) = true := by
  show (jsonListWf (jsonListOfList (sc.shots.map (shotToJsonStripped α))) && true) = true
  rw [shotsStripped_wf α sc.shots]
  rfl

/-- The serialized project is well-formed JSON: `json.dumps` of the
stripped scenes prints no duplicate key, so the parse round-trip
applies. -/
theorem projectStripped_wf (α : Type) :
    ∀ P : List (Scene α),
      jsonWf (.arr (jsonListOfList (P.map (sceneToJsonStripped α)))) = true
  | [] => rfl
  | sc :: rest => by
    show (jsonWf (sceneToJsonStripped α sc) &&
      jsonListWf (jsonListOfList (rest.map (sceneToJsonStripped α)))) = true
    rw [sceneToJsonStripped_wf α sc]
    have := projectStripped_wf α rest
    rw [show jsonWf (.arr (jsonListOfList (rest.map (sceneToJsonStripped α)))) =
      jsonListWf (jsonListOfList (rest.map (sceneToJsonStripped α))) from rfl] at this
    rw [this]
    rfl

/-- Binding a value through `Option`'s monad on a present value. -/
theorem optSomeBind {A B : Type} (a : A) (f : A → Option B) :
    ((some a : Option A) >>= f) = f a := rfl

/-- The decode pipeline inverts the byte-level stages of `encode_scenes`
exactly, handing the parsed stripped project to the file-defaulting
loop. -/
theorem decodePipeline_encode (α : Type) (P : List (Scene α)) :
    decodePipeline (encode_scenes α P) =
      pyFilePass (.arr (jsonListOfList (P.map (sceneToJsonStripped α)))) := by
  unfold encode_scenes decodePipeline
  rw [b64Decode_b64Encode _ (zlibCompress_bytes _ (utf8Encode_lt _)), optSomeBind,
    zlibDecompress_zlibCompress, optSomeBind, utf8Decode_utf8Encode, optSomeBind,
    jsonLoads_jsonDumps _ (projectStripped_wf α P), optSomeBind]

/-- The file-defaulting loop on a stripped shots list restores the
trailing `file: null` binding on every shot. -/
theorem pyShotsPass_stripped (α : Type) :
    ∀ shots : List (Shot α),
      pyShotsPass (jsonListOfList (shots.map (shotToJsonStripped α))) =
        some (jsonListOfList (shots.map (shotToJsonDecoded α)))
  | [] => rfl
  | sh :: rest => by
    rw [show pyShotsPass (jsonListOfList ((sh :: rest).map (shotToJsonStripped α))) =
        (pyShotsPass (jsonListOfList (rest.map (shotToJsonStripped α)))).map
          (.cons (shotToJsonDecoded α sh)) from rfl,
      pyShotsPass_stripped α rest]
    rfl

/-- The file-defaulting loop on a stripped scene yields the decoded
scene. -/
theorem pyScenePass_stripped (α : Type) (sc : Scene α) :
    pyScenePass (sceneToJsonStripped α sc) = some (sceneToJsonDecoded α sc) := by
  rw [show pyScenePass (sceneToJsonStripped α sc) =
      (pyShotsPass (jsonListOfList (sc.shots.map (shotToJsonStripped α)))).map
        (fun shots2 => Json.obj (objSet
          (.cons "id" (.num sc.id)
            (.cons "title" (.str sc.title)
              (.cons "hook" (.str sc.hook)
                (.cons "problem" (.str sc.problem)
                  (.cons "conflict" (.str sc.conflict)
                    (.cons "resolution" (.str sc.resolution)
                      (.cons "shots"
                        (.arr (jsonListOfList (sc.shots.map (shotToJsonStripped α))))
                        .nil)))))))
          "shots" (.arr shots2))) from rfl,
    pyShotsPass_stripped α sc.shots]
  rfl

/-- The decode loop maps the stripped scenes to the decoded scenes. -/
theorem pyScenesListPass_stripped (α : Type) :
    ∀ P : List (Scene α),
      pyScenesListPass (jsonListOfList (P.map (sceneToJsonStripped α))) =
        some (jsonListOfList (P.map (sceneToJsonDecoded α)))
  | [] => rfl
  | sc :: rest => by
    rw [show pyScenesListPass (jsonListOfList ((sc :: rest).map (sceneToJsonStripped α))) =
        (match pyScenePass (sceneToJsonStripped α sc) with
         | some sc2 =>
           (pyScenesListPass (jsonListOfList (rest.map (sceneToJsonStripped α)))).map
             (.cons sc2)
         | none => none) from rfl,
      pyScenePass_stripped α sc, pyScenesListPass_stripped α rest]
    rfl

/-- `decode_scenes ∘ encode_scenes` returns exactly the decoded image of
the project: each scene field for field, each shot stripped of its live
file and given the explicit trailing `file: null`. -/
theorem decode_encode_scenes (α : Type) (P : List (Scene α)) :
    decode_scenes (encode_scenes α P) =
      .arr (jsonListOfList (P.map (sceneToJsonDecoded α))) := by
  have hp : pyFilePass (.arr (jsonListOfList (P.map (sceneToJsonStripped α)))) =
      some (.arr (jsonListOfList (P.map (sceneToJsonDecoded α)))) := by
    rw [show pyFilePass (.arr (jsonListOfList (P.map (sceneToJsonStripped α)))) =
        (pyScenesListPass (jsonListOfList (P.map (sceneToJsonStripped α)))).map .arr
        from rfl,
      pyScenesListPass_stripped α P]
    rfl
  unfold decode_scenes
  rw [decodePipeline_encode α P, hp]

/-- When no shot holds a live upload, the shots' dict image exists and is
the decoded form. -/
theorem shotsDictImage_of_none (α : Type) :
    ∀ shots : List (Shot α), shots.all (fun sh => sh.file.isNone) = true →
      shotsDictImage α shots = some (jsonListOfList (shots.map (shotToJsonDecoded α)))
  | [], _ => rfl
  | sh :: rest, h => by
    rw [List.all_cons, Bool.and_eq_true] at h
    have hf : sh.file = none := by
      cases hv : sh.file
      · rfl
      · rw [hv] at h; exact absurd h.1 (by simp [Option.isNone])
    rw [show shotsDictImage α (sh :: rest) =
        (match shotDictImage α sh with
         | some j => (shotsDictImage α rest).map (.cons j)
         | none => none) from rfl,
      show shotDictImage α sh =
        (match sh.file with
         | none => some (shotToJsonDecoded α sh)
         | some _ => none) from rfl,
      hf, shotsDictImage_of_none α rest h.2]
    rfl

/-- When no shot of any scene holds a live upload, the project's dict
image exists and is the decoded image. -/
theorem scenesDictImage_of_none (α : Type) :
    ∀ P : List (Scene α), allFilesNone α P = true →
      scenesDictImage α P = some (jsonListOfList (P.map (sceneToJsonDecoded α)))
  | [], _ => rfl
  | sc :: rest, h => by
    rw [show allFilesNone α (sc :: rest) =
        ((sc.shots.all fun sh => sh.file.isNone) && allFilesNone α rest) from rfl,
      Bool.and_eq_true] at h
    rw [show scenesDictImage α (sc :: rest) =
        (match sceneDictImage α sc with
         | some j => (scenesDictImage α rest).map (.cons j)
         | none => none) from rfl,
      show sceneDictImage α sc =
        (shotsDictImage α sc.shots).map (fun L =>
          .obj (.cons "id" (.num sc.id)
            (.cons "title" (.str sc.title)
              (.cons "hook" (.str sc.hook)
                (.cons "problem" (.str sc.problem)
                  (.cons "conflict" (.str sc.conflict)
                    (.cons "resolution" (.str sc.resolution)
                      (.cons "shots" (.arr L) .nil)))))))) from rfl,
      shotsDictImage_of_none α sc.shots h.1, scenesDictImage_of_none α rest h.2]
    rfl

/-- A decoded shot matches its live shot field for field. -/
theorem shotMatches_decoded (α : Type) (sh : Shot α) :
    shotMatchesJson α (shotToJsonDecoded α sh) sh = true := by
  simp [shotMatchesJson, shotToJsonDecoded, objLookup]

/-- Decoded shots match the live shots pointwise. -/
theorem shotsMatch_decoded (α : Type) :
    ∀ shots : List (Shot α),
      shotsMatchJson α (jsonListOfList (shots.map (shotToJsonDecoded α))) shots = true
  | [] => rfl
  | sh :: rest => by
    show (shotMatchesJson α (shotToJsonDecoded α sh) sh &&
      shotsMatchJson α (jsonListOfList (rest.map (shotToJsonDecoded α))) rest) = true
    rw [shotMatches_decoded, shotsMatch_decoded α rest]
    rfl

/-- A decoded scene matches its live scene field for field. -/
theorem sceneMatches_decoded (α : Type) (sc : Scene α) :
    sceneMatchesJson α (sceneToJsonDecoded α sc) sc = true := by
  simp [sceneMatchesJson, sceneToJsonDecoded, objLookup, shotsMatch_decoded α sc.shots]

/-- Decoded scenes match the live scenes pointwise. -/
theorem scenesMatch_decoded (α : Type) :
    ∀ P : List (Scene α),
      scenesMatchJson α (jsonListOfList (P.map (sceneToJsonDecoded α))) P = true
  | [] => rfl
  | sc :: rest => by
    show (sceneMatchesJson α (sceneToJsonDecoded α sc) sc &&
      scenesMatchJson α (jsonListOfList (rest.map (sceneToJsonDecoded α))) rest) = true
    rw [sceneMatches_decoded, scenesMatch_decoded α rest]
    rfl

/-- C1: for every project in which every shot's `file` field is absent,
`decode_scenes (encode_scenes P)` is structurally equal to P: it is
exactly the dict image of P (scene ids, the five text fields, shot ids,
types, alt_types, descriptions and the explicit `file: null` markers, all
in the factory's key order), and it matches P field for field. -/
theorem c1_roundtrip (α : Type) (P : List (Scene α)) (hf : allFilesNone α P = true) :
    projectDictImage α P = some (decode_scenes (encode_scenes α P)) ∧
    projectMatchesJson α (decode_scenes (encode_scenes α P)) P = true := by
  rw [decode_encode_scenes α P]
  constructor
  · unfold projectDictImage
    rw [scenesDictImage_of_none α P hf]
    rfl
  · show scenesMatchJson α (jsonListOfList (P.map (sceneToJsonDecoded α))) P = true
    exact scenesMatch_decoded α P

/-- Witness for C1 at the one-scene project `[make_scene 0]`. -/
theorem c1_roundtrip_witness :
    allFilesNone Unit [make_scene Unit 0] = true ∧
    (projectDictImage Unit [make_scene Unit 0] =
        some (decode_scenes (encode_scenes Unit [make_scene Unit 0])) ∧
      projectMatchesJson Unit (decode_scenes (encode_scenes Unit [make_scene Unit 0]))
        [make_scene Unit 0] = true) :=
  ⟨by decide, c1_roundtrip Unit [make_scene Unit 0] (by decide)⟩

/-! ## Fail-soft decoding (C2) and the file-key default (C8) -/

/-- C2 (amended): `decode_scenes` is total and fail-soft over the five
fallible stages it actually guards — base64, `zlib.decompress`,
`bytes.decode`, `json.loads` and the file-defaulting loop: whenever any
of those raises, the empty project `[]` is returned.  But no Scene-record
validation is performed: any JSON value that survives the loop — valid
list of Scene records or not — is returned exactly as parsed. -/
theorem c2_failsoft_amended (token : String) :
    (decodePipeline token = none → decode_scenes token = .arr .nil) ∧
    (∀ j, decodePipeline token = some j → decode_scenes token = j) := by
  constructor
  · intro h
    unfold decode_scenes
    rw [h]
  · intro j h
    unfold decode_scenes
    rw [h]

/-- Witness for C2's amended theorem: `"!"` is not a decodable token
(base64 discards the foreign character, leaving the empty byte string,
and `zlib.decompress` of no bytes raises), so the empty project comes
back. -/
theorem c2_failsoft_amended_witness : decode_scenes "!" = .arr .nil :=
  (c2_failsoft_amended "!").1 (by decide)

/-- Counterexample to C2 as stated: the token of `"[\x7b\x7d]"` decodes
without any stage failing, and the claim's final clause fails — the
decoded value `[\x7b\x7d]` is not a valid list of Scene records, yet
`decode_scenes` returns it as-is instead of the empty project. -/
theorem c2_no_validation_counterexample :
    decode_scenes (b64Encode (zlibCompress (utf8Encode "[\x7b\x7d]"))) =
      .arr (.cons (.obj .nil) .nil) ∧
    validSceneListJson (.arr (.cons (.obj .nil) .nil)) = false ∧
    .arr (.cons (.obj .nil) .nil) ≠ (.arr .nil : Json) := by
  refine ⟨by decide, by decide, by decide⟩

/-- An `Option` bind yields `some` exactly through a successful stage. -/
theorem optBindEqSome {A B : Type} (x : Option A) (f : A → Option B) (b : B) :
    ((x >>= f) = some b) ↔ ∃ a, x = some a ∧ f a = some b := by
  cases x with
  | none => simp [optSomeBind]
  | some a => simp [optSomeBind]

/-- Appending bindings preserves and adds key presence. -/
theorem objHasKey_objAppend : ∀ (o p : JsonObj) (k : String),
    objHasKey (objAppend o p) k = (objHasKey o k || objHasKey p k)
  | .nil, p, k => rfl
  | .cons k1 v tl, p, k => by
    show (decide (k1 = k) || objHasKey (objAppend tl p) k) =
      ((decide (k1 = k) || objHasKey tl k) || objHasKey p k)
    rw [objHasKey_objAppend tl p k, Bool.or_assoc]

/-- `sh.setdefault("file", None)` always leaves the `file` key present. -/
theorem objHasKey_setdefaultFile (kvs : JsonObj) :
    objHasKey (objSetdefaultFile kvs) "file" = true := by
  unfold objSetdefaultFile
  cases hk : objHasKey kvs "file" with
  | true => rw [if_pos rfl]; exact hk
  | false =>
    rw [if_neg Bool.false_ne_true, objHasKey_objAppend, hk]
    rfl

/-- Rebinding a key makes it look up to the new value. -/
theorem objLookup_objSet : ∀ (o : JsonObj) (k : String) (v : Json),
    objLookup (objSet o k v) k = some v
  | .nil, k, v => by
    show (if k = k then some v else objLookup .nil k) = some v
    rw [if_pos rfl]
  | .cons k1 v1 tl, k, v => by
    by_cases hk : k1 = k
    · rw [show objSet (.cons k1 v1 tl) k v =
        (if k1 = k then .cons k1 v tl else .cons k1 v1 (objSet tl k v)) from rfl,
        if_pos hk]
      show (if k1 = k then some v else objLookup tl k) = some v
      rw [if_pos hk]
    · rw [show objSet (.cons k1 v1 tl) k v =
        (if k1 = k then .cons k1 v tl else .cons k1 v1 (objSet tl k v)) from rfl,
        if_neg hk]
      show (if k1 = k then some v1 else objLookup (objSet tl k v) k) = some v
      rw [if_neg hk, objLookup_objSet tl k v]

/-- Every shot list that survives the defaulting loop carries the `file`
key on every shot. -/
theorem pyShotsPass_fileKeys : ∀ (l l2 : JsonList), pyShotsPass l = some l2 →
    jsonListAll shotHasFileKeyB l2 = true
  | .nil, l2, h => by
    injection h with h2
    rw [← h2]
    rfl
  | .cons hd tl, l2, h => by
    cases hd with
    | obj kvs =>
      rw [show pyShotsPass (.cons (.obj kvs) tl) =
        (pyShotsPass tl).map (.cons (.obj (objSetdefaultFile kvs))) from rfl] at h
      cases hps : pyShotsPass tl with
      | none => rw [hps] at h; exact Option.noConfusion h
      | some tl2 =>
        rw [hps] at h
        injection h with h2
        rw [← h2]
        show (shotHasFileKeyB (.obj (objSetdefaultFile kvs)) &&
          jsonListAll shotHasFileKeyB tl2) = true
        rw [show shotHasFileKeyB (.obj (objSetdefaultFile kvs)) =
          objHasKey (objSetdefaultFile kvs) "file" from rfl,
          objHasKey_setdefaultFile, pyShotsPass_fileKeys tl tl2 hps]
        rfl
    | null => exact Option.noConfusion h
    | bool b => exact Option.noConfusion h
    | num n => exact Option.noConfusion h
    | str s => exact Option.noConfusion h
    | arr xs => exact Option.noConfusion h

/-- Every scene that survives the decode loop has the `file` key on all
its shots. -/
theorem pyScenePass_fileKeys (sc sc2 : Json) (h : pyScenePass sc = some sc2) :
    sceneShotsHaveFileKey sc2 = true := by
  cases sc with
  | obj kvs =>
    have h' : (match objLookup kvs "shots" with
      | none => some (Json.obj kvs)
      | some (Json.arr shots) =>
        Option.map (fun shots2 => Json.obj (objSet kvs "shots" (Json.arr shots2)))
          (pyShotsPass shots)
      | some (Json.obj JsonObj.nil) => some (Json.obj kvs)
      | some (Json.str s) => if s = "" then some (Json.obj kvs) else none
      | some _ => none) = some sc2 := h
    clear h
    split at h'
    · rename_i heq
      injection h' with h2
      rw [← h2]
      show (match objLookup kvs "shots" with
        | some (Json.arr shots) => jsonListAll shotHasFileKeyB shots
        | _ => true) = true
      rw [heq]
    · rename_i shots heq
      cases hps : pyShotsPass shots with
      | none => rw [hps] at h'; exact Option.noConfusion h'
      | some shots2 =>
        rw [hps] at h'
        injection h' with h2
        rw [← h2]
        show (match objLookup (objSet kvs "shots" (Json.arr shots2)) "shots" with
          | some (Json.arr shots) => jsonListAll shotHasFileKeyB shots
          | _ => true) = true
        rw [objLookup_objSet]
        exact pyShotsPass_fileKeys shots shots2 hps
    · rename_i heq
      injection h' with h2
      rw [← h2]
      show (match objLookup kvs "shots" with
        | some (Json.arr shots) => jsonListAll shotHasFileKeyB shots
        | _ => true) = true
      rw [heq]
    · rename_i s heq
      split at h'
      · injection h' with h2
        rw [← h2]
        show (match objLookup kvs "shots" with
          | some (Json.arr shots) => jsonListAll shotHasFileKeyB shots
          | _ => true) = true
        rw [heq]
      · exact Option.noConfusion h'
    · exact Option.noConfusion h'
  | null => exact Option.noConfusion h
  | bool b => exact Option.noConfusion h
  | num n => exact Option.noConfusion h
  | str s => exact Option.noConfusion h
  | arr xs => exact Option.noConfusion h

/-- Every scene list that survives the decode loop has the `file` key on
all shots of all scenes. -/
theorem pyScenesListPass_fileKeys : ∀ (l l2 : JsonList),
    pyScenesListPass l = some l2 → jsonListAll sceneShotsHaveFileKey l2 = true
  | .nil, l2, h => by
    injection h with h2
    rw [← h2]
    rfl
  | .cons sc tl, l2, h => by
    rw [show pyScenesListPass (.cons sc tl) =
      (match pyScenePass sc with
       | some sc2 => (pyScenesListPass tl).map (.cons sc2)
       | none => none) from rfl] at h
    cases hsc : pyScenePass sc with
    | none => rw [hsc] at h; exact Option.noConfusion h
    | some sc2 =>
      rw [hsc] at h
      cases hps : pyScenesListPass tl with
      | none => rw [hps] at h; exact Option.noConfusion h
      | some tl2 =>
        rw [hps] at h
        injection h with h2
        rw [← h2]
        show (sceneShotsHaveFileKey sc2 && jsonListAll sceneShotsHaveFileKey tl2) = true
        rw [pyScenePass_fileKeys sc sc2 hsc, pyScenesListPass_fileKeys tl tl2 hps]
        rfl

/-- C8: whenever `decode_scenes` returns a list of scenes, every shot
record of every scene carries an explicit `file` binding (defaulted to
null when the serialized record lacked one) — no returned shot record is
missing the key. -/
theorem c8_file_key_default (token : String) (scenes : JsonList)
    (h : decode_scenes token = .arr scenes) :
    jsonListAll sceneShotsHaveFileKey scenes = true := by
  unfold decode_scenes at h
  cases hp : decodePipeline token with
  | none =>
    rw [hp] at h
    injection h with h2
    rw [← h2]
    rfl
  | some j =>
    rw [hp] at h
    have hj : j = .arr scenes := h
    unfold decodePipeline at hp
    simp only [optBindEqSome] at hp
    obtain ⟨bytes, hb, raw, hr, s, hs, j0, hjl, hf⟩ := hp
    rw [hj] at hf
    cases j0 with
    | arr l =>
      rw [show pyFilePass (.arr l) = (pyScenesListPass l).map .arr from rfl] at hf
      cases hps : pyScenesListPass l with
      | none => rw [hps] at hf; exact Option.noConfusion hf
      | some l2 =>
        rw [hps] at hf
        injection hf with hf2
        injection hf2 with hf3
        rw [← hf3]
        exact pyScenesListPass_fileKeys l l2 hps
    | obj kvs =>
      cases kvs with
      | nil => exact Json.noConfusion (Option.some.inj hf)
      | cons k v tl => exact Option.noConfusion hf
    | str s2 =>
      rw [show pyFilePass (.str s2) = (if s2 = "" then some (.str s2) else none) from rfl] at hf
      split at hf
      · exact Json.noConfusion (Option.some.inj hf)
      · exact Option.noConfusion hf
    | null => exact Option.noConfusion hf
    | bool b => exact Option.noConfusion hf
    | num n => exact Option.noConfusion hf

/-- Witness for C8 at the token of the empty project. -/
theorem c8_file_key_default_witness : jsonListAll sceneShotsHaveFileKey .nil = true :=
  c8_file_key_default (b64Encode (zlibCompress (utf8Encode "[]"))) .nil (by decide)

/-! ## `encode_scenes` leaves the project unchanged (C7) -/

/-- A successful heap read is in bounds. -/
theorem heapGet_lt_length {h : List PObj} {a : Nat} {o : PObj}
    (hg : heapGet h a = some o) : a < h.length := by
  by_contra hle
  push_neg at hle
  rw [heapGet, List.getElem?_eq_none hle] at hg
  exact Option.noConfusion hg

/-- Reads below the old length ignore an extension. -/
theorem heapGet_append {h ext : List PObj} {a : Nat} (ha : a < h.length) :
    heapGet (h ++ ext) a = heapGet h a := by
  unfold heapGet
  rw [List.getElem?_append, if_pos ha]

/-- Reading the first appended cell. -/
theorem heapGet_append_self {h : List PObj} {o : PObj} {ext : List PObj} :
    heapGet (h ++ o :: ext) h.length = some o := by
  unfold heapGet
  rw [List.getElem?_append_right (Nat.le_refl _), Nat.sub_self,
    List.getElem?_cons_zero]

/-- Freshness of shot references is monotone in the bound. -/
theorem freshShotRefs_mono {b b' : Nat} (hb : b' ≤ b) (vs : List PVal)
    (h : freshShotRefs b vs = true) : freshShotRefs b' vs = true := by
  rw [freshShotRefs, List.all_eq_true] at h ⊢
  intro v hv
  have h1 := h v hv
  cases v with
  | ref a => exact decide_eq_true (le_trans hb (of_decide_eq_true h1))
  | vnum n => exact Bool.noConfusion h1
  | vstr s2 => exact Bool.noConfusion h1
  | vnone => exact Bool.noConfusion h1

/-- Freshness of a shots list is monotone in the bound. -/
theorem shotsListFreshAt_mono {b b' : Nat} (hb : b' ≤ b) (h1 : List PObj) (la : Nat)
    (h : shotsListFreshAt b h1 la = true) : shotsListFreshAt b' h1 la = true := by
  unfold shotsListFreshAt at h ⊢
  split at h
  · rename_i refs heq
    exact freshShotRefs_mono hb refs h
  · exact Bool.noConfusion h

/-- Freshness of a scene dict is monotone in the bound. -/
theorem sceneDictFreshAt_mono {b b' : Nat} (hb : b' ≤ b) (h1 : List PObj) (a : Nat)
    (h : sceneDictFreshAt b h1 a = true) : sceneDictFreshAt b' h1 a = true := by
  unfold sceneDictFreshAt at h ⊢
  split at h
  · rename_i kvs heq
    split at h
    · rename_i la heq2
      rw [Bool.and_eq_true] at h
      rw [decide_eq_true (le_trans hb (of_decide_eq_true h.1)),
        shotsListFreshAt_mono hb h1 la h.2]
      rfl
    · exact Bool.noConfusion h
  · exact Bool.noConfusion h

/-- Freshness of a scene reference is monotone in the bound. -/
theorem freshSceneRef_mono {b b' : Nat} (hb : b' ≤ b) (h1 : List PObj) (v : PVal)
    (h : freshSceneRef b h1 v = true) : freshSceneRef b' h1 v = true := by
  cases v with
  | ref a =>
    have h' : (decide (b ≤ a) && sceneDictFreshAt b h1 a) = true := h
    rw [Bool.and_eq_true] at h'
    show (decide (b' ≤ a) && sceneDictFreshAt b' h1 a) = true
    rw [decide_eq_true (le_trans hb (of_decide_eq_true h'.1)),
      sceneDictFreshAt_mono hb h1 a h'.2]
    rfl
  | vnum n => exact Bool.noConfusion h
  | vstr s2 => exact Bool.noConfusion h
  | vnone => exact Bool.noConfusion h

/-- A fresh shots list stays fresh when the heap is extended. -/
theorem shotsListFreshAt_extend {b : Nat} {h1 ext : List PObj} {la : Nat}
    (h : shotsListFreshAt b h1 la = true) : shotsListFreshAt b (h1 ++ ext) la = true := by
  unfold shotsListFreshAt at h ⊢
  split at h
  · rename_i refs heq
    rw [heapGet_append (heapGet_lt_length heq), heq]
    exact h
  · exact Bool.noConfusion h

/-- A fresh scene dict stays fresh when the heap is extended. -/
theorem sceneDictFreshAt_extend {b : Nat} {h1 ext : List PObj} {a : Nat}
    (h : sceneDictFreshAt b h1 a = true) : sceneDictFreshAt b (h1 ++ ext) a = true := by
  unfold sceneDictFreshAt at h ⊢
  split at h
  · rename_i kvs heq
    rw [heapGet_append (heapGet_lt_length heq), heq]
    split at h
    · rename_i la heq2
      show (match lookupPVal kvs "shots" with
        | some (PVal.ref la) => decide (b ≤ la) && shotsListFreshAt b (h1 ++ ext) la
        | _ => false) = true
      rw [heq2]
      rw [Bool.and_eq_true] at h
      show (decide (b ≤ la) && shotsListFreshAt b (h1 ++ ext) la) = true
      rw [h.1, shotsListFreshAt_extend h.2]
      rfl
    · rename_i hne
      exact Bool.noConfusion h
  · exact Bool.noConfusion h

/-- A fresh scene reference stays fresh when the heap is extended. -/
theorem freshSceneRef_extend {b : Nat} {h1 ext : List PObj} {v : PVal}
    (h : freshSceneRef b h1 v = true) : freshSceneRef b (h1 ++ ext) v = true := by
  cases v with
  | ref a =>
    have h' : (decide (b ≤ a) && sceneDictFreshAt b h1 a) = true := h
    rw [Bool.and_eq_true] at h'
    show (decide (b ≤ a) && sceneDictFreshAt b (h1 ++ ext) a) = true
    rw [h'.1, sceneDictFreshAt_extend h'.2]
    rfl
  | vnum n => exact Bool.noConfusion h
  | vstr s2 => exact Bool.noConfusion h
  | vnone => exact Bool.noConfusion h

/-- Rebinding a key in a Python dict makes it look up to the new value. -/
theorem lookupPVal_dictSet : ∀ (kvs : List (String × PVal)) (k : String) (v : PVal),
    lookupPVal (dictSet kvs k v) k = some v
  | [], k, v => by
    show (if k = k then some v else lookupPVal [] k) = some v
    rw [if_pos rfl]
  | (k1, v1) :: tl, k, v => by
    by_cases hk : k1 = k
    · rw [show dictSet ((k1, v1) :: tl) k v =
        (if k1 = k then (k1, v) :: tl else (k1, v1) :: dictSet tl k v) from rfl,
        if_pos hk]
      show (if k1 = k then some v else lookupPVal tl k) = some v
      rw [if_pos hk]
    · rw [show dictSet ((k1, v1) :: tl) k v =
        (if k1 = k then (k1, v) :: tl else (k1, v1) :: dictSet tl k v) from rfl,
        if_neg hk]
      show (if k1 = k then some v1 else lookupPVal (dictSet tl k v) k) = some v
      rw [if_neg hk, lookupPVal_dictSet tl k v]

/-- `stripShotH` allocates exactly one fresh dict and returns its
address. -/
theorem stripShotH_spec {h : List PObj} {v : PVal} {h1 : List PObj} {v1 : PVal}
    (hs : stripShotH h v = some (h1, v1)) :
    ∃ d, h1 = h ++ [d] ∧ v1 = .ref h.length := by
  cases v with
  | ref a =>
    have hs' : (match heapGet h a with
      | some (.dict kvs) =>
        some (h ++ [.dict (kvs.filter (fun kv => kv.1 ≠ "file"))], PVal.ref h.length)
      | _ => none) = some (h1, v1) := hs
    clear hs
    split at hs'
    · rename_i kvs heq
      injection hs' with h2
      injection h2 with hh hv
      exact ⟨_, hh.symm, hv.symm⟩
    · exact Option.noConfusion hs'
  | vnum n => exact Option.noConfusion hs
  | vstr s2 => exact Option.noConfusion hs
  | vnone => exact Option.noConfusion hs

/-- The inner comprehension only extends the heap and returns fresh
references. -/
theorem stripShotsH_spec : ∀ (vs : List PVal) (h h1 : List PObj) (outs : List PVal),
    stripShotsH h vs = some (h1, outs) →
    (∃ ext, h1 = h ++ ext) ∧ freshShotRefs h.length outs = true
  | [], h, h1, outs, hs => by
    injection hs with h2
    injection h2 with hh hv
    refine ⟨⟨[], by rw [← hh, List.append_nil]⟩, ?_⟩
    rw [← hv]
    rfl
  | v :: rest, h, h1, outs, hs => by
    rw [show stripShotsH h (v :: rest) =
      (match stripShotH h v with
       | some (hA, v1) =>
         (match stripShotsH hA rest with
          | some (h2, vs2) => some (h2, v1 :: vs2)
          | none => none)
       | none => none) from rfl] at hs
    cases hsh : stripShotH h v with
    | none => rw [hsh] at hs; exact Option.noConfusion hs
    | some pr =>
      obtain ⟨hA, v1⟩ := pr
      rw [hsh] at hs
      have hs2 : (match stripShotsH hA rest with
        | some (h2, vs2) => some (h2, v1 :: vs2)
        | none => none) = some (h1, outs) := hs
      clear hs
      cases hrest : stripShotsH hA rest with
      | none => rw [hrest] at hs2; exact Option.noConfusion hs2
      | some pr2 =>
        obtain ⟨h2, vs2⟩ := pr2
        rw [hrest] at hs2
        injection hs2 with hpair
        injection hpair with hh hv
        obtain ⟨d, hhA, hv1⟩ := stripShotH_spec hsh
        obtain ⟨⟨ext2, hh2⟩, hfr⟩ := stripShotsH_spec rest hA h2 vs2 hrest
        have hble : h.length ≤ hA.length := by rw [hhA, List.length_append]; omega
        constructor
        · exact ⟨[d] ++ ext2, by rw [← hh, hh2, hhA, List.append_assoc]⟩
        · rw [← hv, hv1]
          rw [show freshShotRefs h.length (PVal.ref h.length :: vs2) =
            (decide (h.length ≤ h.length) && freshShotRefs h.length vs2) from rfl,
            decide_eq_true (Nat.le_refl _),
            freshShotRefs_mono hble vs2 hfr]
          rfl

/-- One scene copy: the heap is only extended, and the new scene dict,
its shots list and all its shot dicts are fresh. -/
theorem stripSceneH_spec {h : List PObj} {v : PVal} {h1 : List PObj} {out : PVal}
    (hs : stripSceneH h v = some (h1, out)) :
    (∃ ext, h1 = h ++ ext) ∧ freshSceneRef h.length h1 out = true := by
  cases v with
  | ref a =>
    have hs' : (match heapGet h a with
      | some (.dict kvs) =>
        (match lookupPVal kvs "shots" with
         | some (.ref la) =>
           (match heapGet h la with
            | some (.list shotRefs) =>
              (match stripShotsH h shotRefs with
               | some (hA, newRefs) =>
                 some (hA ++ [.list newRefs] ++
                         [.dict (dictSet kvs "shots" (.ref (hA.length)))],
                       PVal.ref (hA.length + 1))
               | none => none)
            | _ => none)
         | _ => none)
      | _ => none) = some (h1, out) := hs
    clear hs
    split at hs'
    · rename_i kvs heq
      split at hs'
      · rename_i la heq2
        split at hs'
        · rename_i shotRefs heq3
          split at hs'
          · rename_i hA newRefs heq4
            injection hs' with hpair
            injection hpair with hh hout
            obtain ⟨⟨ext, hhA⟩, hfr⟩ := stripShotsH_spec shotRefs h hA newRefs heq4
            have hble : h.length ≤ hA.length := by rw [hhA, List.length_append]; omega
            have hg2 : heapGet (hA ++ [PObj.list newRefs] ++
                [PObj.dict (dictSet kvs "shots" (PVal.ref hA.length))]) (hA.length + 1) =
                some (PObj.dict (dictSet kvs "shots" (PVal.ref hA.length))) := by
              have hlen : (hA ++ [PObj.list newRefs]).length = hA.length + 1 := by
                rw [List.length_append]
                rfl
              rw [← hlen]
              exact heapGet_append_self
            have hg1 : heapGet (hA ++ [PObj.list newRefs] ++
                [PObj.dict (dictSet kvs "shots" (PVal.ref hA.length))]) hA.length =
                some (PObj.list newRefs) := by
              rw [List.append_assoc]
              exact heapGet_append_self
            constructor
            · exact ⟨ext ++ [PObj.list newRefs] ++
                [PObj.dict (dictSet kvs "shots" (PVal.ref hA.length))],
                by rw [← hh, hhA]; simp [List.append_assoc]⟩
            · rw [← hout, ← hh]
              show (decide (h.length ≤ hA.length + 1) &&
                sceneDictFreshAt h.length (hA ++ [PObj.list newRefs] ++
                  [PObj.dict (dictSet kvs "shots" (PVal.ref hA.length))])
                  (hA.length + 1)) = true
              rw [decide_eq_true (by omega)]
              have hsd : sceneDictFreshAt h.length (hA ++ [PObj.list newRefs] ++
                  [PObj.dict (dictSet kvs "shots" (PVal.ref hA.length))])
                  (hA.length + 1) = true := by
                unfold sceneDictFreshAt
                rw [hg2]
                show (match lookupPVal (dictSet kvs "shots" (PVal.ref hA.length)) "shots" with
                  | some (PVal.ref la2) => decide (h.length ≤ la2) &&
                      shotsListFreshAt h.length (hA ++ [PObj.list newRefs] ++
                        [PObj.dict (dictSet kvs "shots" (PVal.ref hA.length))]) la2
                  | _ => false) = true
                rw [lookupPVal_dictSet]
                show (decide (h.length ≤ hA.length) &&
                  shotsListFreshAt h.length (hA ++ [PObj.list newRefs] ++
                    [PObj.dict (dictSet kvs "shots" (PVal.ref hA.length))]) hA.length) = true
                rw [decide_eq_true hble]
                have hsl : shotsListFreshAt h.length (hA ++ [PObj.list newRefs] ++
                    [PObj.dict (dictSet kvs "shots" (PVal.ref hA.length))]) hA.length = true := by
                  unfold shotsListFreshAt
                  rw [hg1]
                  exact hfr
                rw [hsl]
                rfl
              rw [hsd]
              rfl
          · exact Option.noConfusion hs'
        · exact Option.noConfusion hs'
      · exact Option.noConfusion hs'
    · exact Option.noConfusion hs'
  | vnum n => exact Option.noConfusion hs
  | vstr s2 => exact Option.noConfusion hs
  | vnone => exact Option.noConfusion hs

/-- The outer comprehension: the heap is only extended, and every
returned scene copy is wholly fresh. -/
theorem stripScenesH_spec : ∀ (vs : List PVal) (h h1 : List PObj) (outs : List PVal),
    stripScenesH h vs = some (h1, outs) →
    (∃ ext, h1 = h ++ ext) ∧ ∀ v ∈ outs, freshSceneRef h.length h1 v = true
  | [], h, h1, outs, hs => by
    injection hs with h2
    injection h2 with hh hv
    refine ⟨⟨[], by rw [← hh, List.append_nil]⟩, ?_⟩
    intro v hv2
    rw [← hv] at hv2
    exact absurd hv2 (List.not_mem_nil v)
  | scv :: rest, h, h1, outs, hs => by
    rw [show stripScenesH h (scv :: rest) =
      (match stripSceneH h scv with
       | some (hA, v1) =>
         (match stripScenesH hA rest with
          | some (h2, vs2) => some (h2, v1 :: vs2)
          | none => none)
       | none => none) from rfl] at hs
    cases hsc : stripSceneH h scv with
    | none => rw [hsc] at hs; exact Option.noConfusion hs
    | some pr =>
      obtain ⟨hA, v1⟩ := pr
      rw [hsc] at hs
      have hs2 : (match stripScenesH hA rest with
        | some (h2, vs2) => some (h2, v1 :: vs2)
        | none => none) = some (h1, outs) := hs
      clear hs
      cases hrest : stripScenesH hA rest with
      | none => rw [hrest] at hs2; exact Option.noConfusion hs2
      | some pr2 =>
        obtain ⟨h2, vs2⟩ := pr2
        rw [hrest] at hs2
        injection hs2 with hpair
        injection hpair with hh hv
        obtain ⟨⟨extA, hhA⟩, hfrA⟩ := stripSceneH_spec hsc
        obtain ⟨⟨ext2, hh2⟩, hfr2⟩ := stripScenesH_spec rest hA h2 vs2 hrest
        have hble : h.length ≤ hA.length := by rw [hhA, List.length_append]; omega
        constructor
        · exact ⟨extA ++ ext2, by rw [← hh, hh2, hhA, List.append_assoc]⟩
        · intro v hvmem
          rw [← hv] at hvmem
          rcases List.mem_cons.mp hvmem with h1m | h2m
          · subst h1m
            rw [← hh, hh2]
            exact freshSceneRef_extend hfrA
          · rw [← hh]
            exact freshSceneRef_mono hble h2 v (hfr2 v h2m)

/-- `strip_files` only extends the heap, and its whole output — the new
scenes list, every scene dict, every shots list and every shot dict — is
freshly allocated. -/
theorem strip_files_heap_spec {h : List PObj} {v : PVal} {h1 : List PObj} {out : PVal}
    (hs : strip_files_heap h v = some (h1, out)) :
    (∃ ext, h1 = h ++ ext) ∧ stripOutputFresh h.length h1 out = true := by
  cases v with
  | ref a =>
    have hs' : (match heapGet h a with
      | some (.list sceneRefs) =>
        (match stripScenesH h sceneRefs with
         | some (hS, newRefs) => some (hS ++ [PObj.list newRefs], PVal.ref hS.length)
         | none => none)
      | _ => none) = some (h1, out) := hs
    clear hs
    split at hs'
    · rename_i sceneRefs heq
      split at hs'
      · rename_i hS newRefs heq2
        injection hs' with hpair
        injection hpair with hh hout
        obtain ⟨⟨ext, hhS⟩, hfr⟩ := stripScenesH_spec sceneRefs h hS newRefs heq2
        have hble : h.length ≤ hS.length := by rw [hhS, List.length_append]; omega
        constructor
        · exact ⟨ext ++ [PObj.list newRefs], by rw [← hh, hhS, List.append_assoc]⟩
        · rw [← hout, ← hh]
          show (decide (h.length ≤ hS.length) &&
            (match heapGet (hS ++ [PObj.list newRefs]) hS.length with
             | some (PObj.list refs) =>
               refs.all (freshSceneRef h.length (hS ++ [PObj.list newRefs]))
             | _ => false)) = true
          rw [decide_eq_true hble, heapGet_append_self]
          show (true && newRefs.all (freshSceneRef h.length (hS ++ [PObj.list newRefs]))) = true
          rw [Bool.true_and, List.all_eq_true]
          intro v hvm
          exact freshSceneRef_extend (hfr v hvm)
      · exact Option.noConfusion hs'
    · exact Option.noConfusion hs'
  | vnum n => exact Option.noConfusion hs
  | vstr s2 => exact Option.noConfusion hs
  | vnone => exact Option.noConfusion hs

/-- C7: `encode_scenes` has no side effect on the project: the final heap
extends the initial one (every pre-existing object, including every
shot's `file` binding, reads back unchanged at its old address), and the
stripped copy handed to the serializer shares no record with the live
project — its scenes list, scene dicts, shots lists and shot dicts all
live at freshly allocated addresses. -/
theorem c7_encode_no_side_effects (h : List PObj) (v : PVal) (h2 : List PObj)
    (out : PVal) (tok : String)
    (henc : encode_scenes_heap h v = some (h2, out, tok)) :
    (∃ ext, h2 = h ++ ext) ∧ (∀ a, a < h.length → heapGet h2 a = heapGet h a) ∧
      stripOutputFresh h.length h2 out = true := by
  unfold encode_scenes_heap at henc
  split at henc
  · rename_i h1 out1 heq
    split at henc
    · rename_i j heq2
      injection henc with hpair
      injection hpair with hh hrest
      injection hrest with hout htok
      subst hh
      subst hout
      obtain ⟨⟨ext, hext⟩, hfr⟩ := strip_files_heap_spec heq
      refine ⟨⟨ext, hext⟩, ?_, hfr⟩
      intro a ha
      rw [hext, heapGet_append ha]
    · exact Option.noConfusion henc
  · exact Option.noConfusion henc

/-- Witness for C7 at the concrete example heap: the call succeeds, the
original five objects read back unchanged, and the copy is detached. -/
theorem c7_encode_no_side_effects_witness :
    (∃ ext, exampleHeapAfter = exampleHeap ++ ext) ∧
    (∀ a, a < exampleHeap.length →
      heapGet exampleHeapAfter a = heapGet exampleHeap a) ∧
    stripOutputFresh exampleHeap.length exampleHeapAfter (.ref 8) = true :=
  c7_encode_no_side_effects exampleHeap (.ref 4) exampleHeapAfter (.ref 8)
    ((encode_scenes_heap exampleHeap (.ref 4)).elim "" (fun r => r.2.2)) (by rfl)
